import Mathlib

/-!
Verification development for the coachv2 odds-ingestion and reverse-line-movement
pipeline.  The Python sources are shallowly embedded as executable Lean
definitions:

* `app/utils/odds.py` — Python `decimal` arithmetic under the module-level
  context `getcontext().prec = 12` is modelled exactly: every `Decimal`
  value is a rational number, and every arithmetic operation
  (`+`, `-`, unary `-`, `/`) correctly rounds its exact rational result to
  12 significant digits with round-half-even, which is precisely what the
  Python `decimal` context does.  `Decimal.quantize` rounds to a fixed
  number of fractional digits with round-half-even.
* `app/services/movement/detector.py` — the detector over snapshot rows,
  with timestamps as integers (seconds) and `timedelta(minutes=m)` as `60*m`.
* `app/worker/tasks.py` — the normalizer/persistence layer over an explicit
  relational store.  Committing validates the uniqueness constraints of
  `app/models/__init__.py` (`uq_sportsbooks_key`, `uq_event_provider_id`,
  `uq_snapshot_unique_event`) over the whole table, which agrees with the
  real database on every state reachable through committed transactions.
* `app/services/odds/client.py` — the provider gateway; a provider call
  that raises is modelled as an `Except` value.
-/

namespace CoachV2

/-! ## Decimal arithmetic (app/utils/odds.py, `getcontext().prec = 12`) -/

/-- Fuel-based floor of the base-10 logarithm on naturals
(`natLog10 n` is the number of decimal digits of `n` minus one). -/

def natLog10Aux : ℕ → ℕ → ℕ
  | 0, _ => 0
  | fuel+1, n => if n < 10 then 0 else 1 + natLog10Aux fuel (n / 10)

def natLog10 (n : ℕ) : ℕ := natLog10Aux n n

/-- Floor of the base-10 logarithm of a positive rational: the unique `e`
with `10^e ≤ q < 10^(e+1)`. -/

def ratLog10 (q : ℚ) : ℤ :=
  let e0 : ℤ := (natLog10 q.num.toNat : ℤ) - (natLog10 q.den : ℤ)
  if (10:ℚ) ^ e0 ≤ q then e0 else e0 - 1

/-- Round a rational to the nearest integer, ties to the even neighbour
(the `ROUND_HALF_EVEN` mode of Python's default decimal context). -/

def roundHalfEven (q : ℚ) : ℤ :=
  if q - ⌊q⌋ < 1/2 then ⌊q⌋
  else if 1/2 < q - ⌊q⌋ then ⌊q⌋ + 1
  else if ⌊q⌋ % 2 = 0 then ⌊q⌋ else ⌊q⌋ + 1

/-- Correctly round a positive rational to `prec` significant decimal
digits, half-even. -/

def roundSigPos (prec : ℕ) (q : ℚ) : ℚ :=
  let s : ℤ := (prec : ℤ) - 1 - ratLog10 q
  (roundHalfEven (q * 10 ^ s) : ℚ) / 10 ^ s

/-- Correctly round a rational to `prec` significant decimal digits,
half-even; this is the value a Python `decimal` operation under a context
with precision `prec` produces from the exact rational result. -/

def roundSig (prec : ℕ) (q : ℚ) : ℚ :=
  if 0 < q then roundSigPos prec q
  else if q < 0 then - roundSigPos prec (-q)
  else 0

/-- `Decimal.__add__` under `getcontext().prec = 12`. -/

def decAdd (a b : ℚ) : ℚ := roundSig 12 (a + b)

/-- `Decimal.__sub__` under `getcontext().prec = 12`. -/

def decSub (a b : ℚ) : ℚ := roundSig 12 (a - b)

/-- `Decimal.__truediv__` under `getcontext().prec = 12`. -/

def decDiv (a b : ℚ) : ℚ := roundSig 12 (a / b)

/-- `Decimal.__neg__` under `getcontext().prec = 12` (unary minus also
applies the context rounding in Python). -/

def decNeg (a : ℚ) : ℚ := roundSig 12 (-a)

/-- `Decimal.quantize(Decimal("0.0...01"))` with `d` fractional digits,
round-half-even. -/

def quantize (d : ℕ) (q : ℚ) : ℚ := (roundHalfEven (q * 10 ^ d) : ℚ) / 10 ^ d

/-- `american_to_implied_probability` from `app/utils/odds.py`.
`None` input (`odds is None`) returns `Decimal("0")`; otherwise
`Decimal(100) / (odds + Decimal(100))` for positive odds and
`-odds / (-odds + Decimal(100))` for the rest, each operation rounding
at 12 significant digits. -/

def american_to_implied_probability : Option ℤ → ℚ
  | none => 0
  | some odds =>
    let odds_decimal : ℚ := (odds : ℚ)
    if 0 < odds_decimal then decDiv 100 (decAdd odds_decimal 100)
    else decDiv (decNeg odds_decimal) (decAdd (decNeg odds_decimal) 100)

/-- The spec's formula for the implied probability (§4.1): exactly
`100/(p+100)` for positive prices and `|p|/(|p|+100)` otherwise, as an
exact rational with no rounding.  Stated from the spec's words for
comparison with the source function. -/

def exact_implied_probability (p : ℤ) : ℚ :=
  if 0 < p then 100 / ((p : ℚ) + 100) else |(p : ℚ)| / (|(p : ℚ)| + 100)

/-! ## Movement detector (app/services/movement/detector.py)

Timestamps are integers (seconds); `timedelta(minutes=m)` is `60 * m`.
The float confidence multipliers are embedded as rationals: every Python
float is exactly a rational number and for the configurations considered
here (small integers such as `2.0`/`3.0` times a small integer threshold)
float multiplication is exact, so the embedding is faithful. -/

/-- An `OddsSnapshot` row as the detector reads it. -/

structure Snapshot where
  id : ℤ
  event_id : ℤ
  sportsbook_id : ℤ
  fetched_at : ℤ
  home_price : Option ℤ
  away_price : Option ℤ
deriving DecidableEq

/-- One entry of the per-side dictionary built by `_snapshot_prices`. -/

structure SideInfo where
  price : ℤ
  probability : ℚ
deriving DecidableEq

/-- The two-sided dictionary returned by `_snapshot_prices`. -/

structure Prices where
  home : SideInfo
  away : SideInfo
deriving DecidableEq

/-- Dictionary access `data[side]`; the detector only indexes the price
dictionary with the keys "home" and "away". -/

def sideOf (d : Prices) (side : String) : SideInfo :=
  if side = "home" then d.home else d.away

/-- The `MovementResult` dataclass. -/

structure MovementResult where
  bet_side : String
  movement_cents : ℤ
  probability_delta : ℚ
  previous_price : ℤ
  current_price : ℤ
  previous_probability : ℚ
  current_probability : ℚ
deriving DecidableEq

/-- `_snapshot_prices`: `None` as soon as either price is missing,
otherwise both prices with their implied probabilities. -/

def snapshot_prices (s : Snapshot) : Option Prices :=
  match s.home_price, s.away_price with
  | some hp, some ap =>
    some { home := { price := hp, probability := american_to_implied_probability (some hp) },
           away := { price := ap, probability := american_to_implied_probability (some ap) } }
  | _, _ => none

/-- `_identify_underdog`: the side with the strictly lower implied
probability, `None` on a perfect tie.  (The source's `None` checks on the
probabilities are vacuous: the converter is total on present prices.) -/

def identify_underdog (data : Prices) : Option String :=
  if data.home.probability = data.away.probability then none
  else if data.home.probability < data.away.probability then some "home" else some "away"

/-- `_evaluate_movement`.  The source's `None` re-check on the two
underdog prices is unreachable (prices in the dictionary are never
`None`) and is dropped. -/

def evaluate_movement (snapshot previous_snapshot : Snapshot) : Option MovementResult :=
  match snapshot_prices previous_snapshot, snapshot_prices snapshot with
  | some previous, some current =>
    match identify_underdog previous, identify_underdog current with
    | some underdog_side, some current_underdog_side =>
      if underdog_side ≠ current_underdog_side then none
      else
        let prev_price := (sideOf previous underdog_side).price
        let current_price := (sideOf current underdog_side).price
        let movement_cents := prev_price - current_price
        if movement_cents ≤ 0 then none
        else
          let prev_prob := quantize 6 (sideOf previous underdog_side).probability
          let current_prob := quantize 6 (sideOf current underdog_side).probability
          let prob_delta := quantize 4 (decSub current_prob prev_prob)
          if prob_delta ≤ 0 then none
          else some { bet_side := underdog_side,
                      movement_cents := movement_cents,
                      probability_delta := prob_delta,
                      previous_price := prev_price,
                      current_price := current_price,
                      previous_probability := prev_prob,
                      current_probability := current_prob }
    | _, _ => none
  | _, _ => none

/-- The JSON `details` payload the detector stores on a recommendation
(string rendering of the probabilities is presentation only and kept as
the rational values). -/

structure RecDetails where
  previous_price : ℤ
  current_price : ℤ
  previous_probability : ℚ
  current_probability : ℚ
  probability_delta : ℚ
  threshold_cents : ℤ
deriving DecidableEq

/-- A `Recommendation` row; enum-typed columns hold the enum `.value`
strings. -/

structure RecRow where
  event_id : ℤ
  sportsbook_id : ℤ
  snapshot_id : ℤ
  triggered_at : ℤ
  direction : String
  movement_cents : ℤ
  edge : ℚ
  confidence : String
  bet_side : String
  stake_units : Option ℚ
  status : String
  details : RecDetails
deriving DecidableEq

/-- `_passes_cooldown`: with a positive cooldown, any existing
recommendation for the same (event, sportsbook, bet_side) triple whose
trigger time is at or after `fetched_at - minutes(cooldown)` suppresses
the signal. -/

def passes_cooldown (existing : List RecRow) (snapshot : Snapshot)
    (bet_side : String) (cooldown_minutes : ℤ) : Bool :=
  if cooldown_minutes ≤ 0 then true
  else
    let window_start := snapshot.fetched_at - 60 * cooldown_minutes
    !(existing.any fun r =>
      r.event_id == snapshot.event_id && r.sportsbook_id == snapshot.sportsbook_id &&
      r.bet_side == bet_side && decide (window_start ≤ r.triggered_at))

/-- `_confidence_bucket`. -/

def confidence_bucket (movement_cents : ℤ) (threshold : ℤ)
    (medium_multiplier high_multiplier : ℚ) : String :=
  if (threshold : ℚ) * high_multiplier ≤ (movement_cents : ℚ) then "high"
  else if (threshold : ℚ) * medium_multiplier ≤ (movement_cents : ℚ) then "medium"
  else "low"

/-- The configuration values the detector reads from `current_app.config`. -/

structure DetectorConfig where
  threshold_cents : ℤ
  cooldown_minutes : ℤ
  medium_multiplier : ℚ
  high_multiplier : ℚ

/-- `detect_reverse_line_move`, with the prior `Recommendation` state the
cooldown query reads passed in as `existing`. -/

def detect_reverse_line_move (cfg : DetectorConfig) (existing : List RecRow)
    (snapshot : Snapshot) (previous_snapshot : Option Snapshot) : Option RecRow :=
  match previous_snapshot with
  | none => none
  | some previous =>
    match evaluate_movement snapshot previous with
    | none => none
    | some movement =>
      if movement.movement_cents < cfg.threshold_cents then none
      else if !(passes_cooldown existing snapshot movement.bet_side cfg.cooldown_minutes) then none
      else
        some { event_id := snapshot.event_id,
               sportsbook_id := snapshot.sportsbook_id,
               snapshot_id := snapshot.id,
               triggered_at := snapshot.fetched_at,
               direction := "reverse",
               movement_cents := movement.movement_cents,
               edge := movement.probability_delta,
               confidence := confidence_bucket movement.movement_cents cfg.threshold_cents
                 cfg.medium_multiplier cfg.high_multiplier,
               bet_side := movement.bet_side,
               stake_units := none,
               status := "pending",
               details := { previous_price := movement.previous_price,
                            current_price := movement.current_price,
                            previous_probability := movement.previous_probability,
                            current_probability := movement.current_probability,
                            probability_delta := movement.probability_delta,
                            threshold_cents := cfg.threshold_cents } }

/-! ## Provider gateway (app/services/odds/client.py) -/

/-- A configured provider: its name and its `fetch_moneyline_odds` call,
whose outcome is either a list of payloads or a raised exception
(`Except.error`).  The payload type is abstract here; the normalizer
section instantiates it. -/

structure OddsProvider (α : Type) where
  name : String
  fetch : List String → Except String (List α)

/-- `OddsClient.fetch_moneyline_odds`: iterate the providers in order,
extend the aggregate with each successful result, swallow (log) any
exception. -/

def fetch_moneyline_odds {α : Type} (providers : List (OddsProvider α))
    (sports : List String) : List α :=
  providers.foldl
    (fun aggregated provider =>
      match provider.fetch sports with
      | Except.ok result => aggregated ++ result
      | Except.error _ => aggregated)
    []

/-! ## Snapshot normalizer and store (app/worker/tasks.py)

Raw provider payloads are embedded structurally (`.get` on absent JSON
keys becomes `Option`).  ISO-8601 timestamp strings are abstracted by
`RawTime`: a string `dateutil.parser.isoparse` accepts becomes `iso t`
with `t` the parsed UTC instant, and any string it rejects becomes
`unparseable` (the `not value` falsy check on `None`/empty strings also
yields a `None` parse, so those map to `unparseable` as well).

The database session is modelled explicitly: queries read the working
store (Flask-SQLAlchemy sessions autoflush, so pending rows are visible
to the duplicate check), and a commit validates the declared uniqueness
constraints over the store.  `external` rows model rows committed by a
concurrent writer between this cycle's duplicate checks and its commit —
the race called out by the spec's error taxonomy; an isolated cycle
passes `[]`. -/

/-- A timestamp string as the parser sees it. -/

inductive RawTime where
  | unparseable
  | iso (t : ℤ)
deriving DecidableEq

/-- `_parse_datetime`: `None`/falsy and unparseable values yield `None`,
otherwise the UTC instant. -/

def parse_datetime : Option RawTime → Option ℤ
  | none => none
  | some RawTime.unparseable => none
  | some (RawTime.iso t) => some t

/-- One outcome entry of a raw `h2h` market. -/

structure RawOutcome where
  name : Option String
  price : Option ℤ
deriving DecidableEq

/-- One market entry of a raw bookmaker. -/

structure RawMarket where
  key : Option String
  outcomes : List RawOutcome
deriving DecidableEq

/-- One bookmaker entry of a raw event payload. -/

structure RawBookmaker where
  key : Option String
  title : Option String
  last_update : Option RawTime
  markets : List RawMarket
deriving DecidableEq

/-- The `event` object of a raw payload. -/

structure RawEventData where
  id : Option String
  commence_time : Option RawTime
  home_team : Option String
  away_team : Option String
  sport_title : Option String
  bookmakers : List RawBookmaker
deriving DecidableEq

/-- One provider-tagged event payload as produced by the gateway. -/

structure EventPayload where
  provider : Option String
  sport_key : Option String
  event : RawEventData
deriving DecidableEq

/-- A `sportsbooks` row. -/

structure SportsbookRow where
  id : ℤ
  key : String
  name : String
deriving DecidableEq

/-- An `events` row (the fields the pipeline touches). -/

structure EventRow where
  id : ℤ
  provider : String
  provider_event_id : Option String
  sport_key : Option String
  commence_time : Option ℤ
  home_team : Option String
  away_team : Option String
  league : Option String
deriving DecidableEq

/-- An `odds_snapshots` row. -/

structure SnapshotRow where
  event_id : ℤ
  sportsbook_id : ℤ
  provider : String
  fetched_at : ℤ
  market_key : String
  home_price : Option ℤ
  away_price : Option ℤ
  draw_price : Option ℤ
  home_implied_prob : Option ℚ
  away_implied_prob : Option ℚ
  draw_implied_prob : Option ℚ
deriving DecidableEq

/-- The persistent tables the normalizer touches, plus the id counters the
database assigns on insert. -/

structure Store where
  sportsbooks : List SportsbookRow
  events : List EventRow
  snapshots : List SnapshotRow
  next_sportsbook_id : ℤ
  next_event_id : ℤ
deriving DecidableEq

/-- The column tuple of `uq_event_provider_id`. -/

def eventKey (e : EventRow) : String × Option String :=
  (e.provider, e.provider_event_id)

/-- The column tuple of `uq_snapshot_unique_event`. -/

def snapKey (r : SnapshotRow) : ℤ × ℤ × String × String × ℤ :=
  (r.event_id, r.sportsbook_id, r.provider, r.market_key, r.fetched_at)

/-- The uniqueness constraints of the schema (`uq_sportsbooks_key`,
`uq_event_provider_id`, `uq_snapshot_unique_event`); a commit succeeds
exactly when the store satisfies them. -/

def storeOk (s : Store) : Prop :=
  (s.sportsbooks.map SportsbookRow.key).Nodup ∧
  (s.events.map eventKey).Nodup ∧
  (s.snapshots.map snapKey).Nodup

instance (s : Store) : Decidable (storeOk s) := by
  unfold storeOk
  infer_instance

/-- `_ensure_sportsbooks`: nothing to do on an empty configured list
(the source returns before touching the session); otherwise create a row
for every configured key not already present and commit.  A failing
commit raises `IntegrityError` and rolls back, leaving the store as it
was. -/

def ensure_sportsbooks (bookmakers : List String) (s : Store) : Except Unit Store :=
  if bookmakers.isEmpty then Except.ok s
  else
    let existingKeys := (s.sportsbooks.filter (fun sb => bookmakers.contains sb.key)).map
      SportsbookRow.key
    let s2 := bookmakers.foldl
      (fun acc key =>
        if existingKeys.contains key then acc
        else { acc with
               sportsbooks := acc.sportsbooks ++
                 [{ id := acc.next_sportsbook_id, key := key, name := key.capitalize }],
               next_sportsbook_id := acc.next_sportsbook_id + 1 })
      s
    if storeOk s2 then Except.ok s2 else Except.error ()

/-- `_sportsbook_lookup` as the association list of the dict
comprehension; built by prepending so that a later record shadows an
earlier one with the same key, as in a Python dict. -/

def sportsbook_lookup (bookmakers : List String) (rows : List SportsbookRow) :
    List (String × SportsbookRow) :=
  let records := if bookmakers.isEmpty then rows
    else rows.filter (fun sb => bookmakers.contains sb.key)
  records.foldl (fun acc record => (record.key, record) :: acc) []

/-- Python `dict.get` on the lookup, with a possibly-`None` key (a `None`
key never hits: the dict's keys are strings). -/

def lookup_get (lookup : List (String × SportsbookRow)) :
    Option String → Option SportsbookRow
  | none => none
  | some k => (lookup.find? (fun kv => kv.fst == k)).map Prod.snd

/-- The row contents `_upsert_event` writes for a payload (identical for
the insert and the update branch apart from the id). -/

def eventRowFor (provider : String) (sport_key : Option String)
    (payload : RawEventData) (id : ℤ) : EventRow :=
  { id := id, provider := provider, provider_event_id := payload.id,
    sport_key := sport_key, commence_time := parse_datetime payload.commence_time,
    home_team := payload.home_team, away_team := payload.away_team,
    league := payload.sport_title }

/-- `_upsert_event`: find by (provider, provider_event_id); update the
descriptive fields of the existing row, or insert a new row, flushing to
obtain its id from the counter. -/

def upsert_event (provider : String) (sport_key : Option String)
    (payload : RawEventData) (s : Store) : EventRow × Store :=
  match s.events.find? (fun e => e.provider == provider && e.provider_event_id == payload.id) with
  | some e =>
    let e2 := eventRowFor provider sport_key payload e.id
    let updated := s.events.map
      (fun r => if r.provider == provider && r.provider_event_id == payload.id then e2 else r)
    (e2, { s with events := updated })
  | none =>
    let e2 := eventRowFor provider sport_key payload s.next_event_id
    (e2, { s with events := s.events ++ [e2], next_event_id := s.next_event_id + 1 })

/-- `_extract_market`: the first market whose key matches. -/

def extract_market (markets : List RawMarket) (key : String) : Option RawMarket :=
  markets.find? (fun m => m.key == some key)

/-- `_map_outcomes` as an association list; built by prepending so a later
outcome with the same name shadows an earlier one, as in a Python dict. -/

def map_outcomes (outcomes : List RawOutcome) : List (String × ℤ) :=
  outcomes.foldl
    (fun mapped o =>
      match o.name, o.price with
      | some n, some p => (n, p) :: mapped
      | _, _ => mapped)
    []

/-- `outcomes.get(name)` with a possibly-`None` name. -/

def outcomes_get (mapped : List (String × ℤ)) : Option String → Option ℤ
  | none => none
  | some n => (mapped.find? (fun kv => kv.fst == n)).map Prod.snd

/-- `outcomes.get("Draw") or outcomes.get("draw")`: Python `or` falls
through on falsy values, so a priced `Draw` outcome of `0` also falls back
to the lowercase key. -/

def draw_price_of (mapped : List (String × ℤ)) : Option ℤ :=
  match outcomes_get mapped (some "Draw") with
  | some p => if p ≠ 0 then some p else outcomes_get mapped (some "draw")
  | none => outcomes_get mapped (some "draw")

/-- `_snapshot_exists`: a `None` fetch time disables the duplicate check;
otherwise look for a row with the same event, sportsbook, provider and
fetch time (the query does not filter on `market_key`). -/

def snapshot_exists (snapshots : List SnapshotRow) (event_id sportsbook_id : ℤ)
    (provider : String) (fetched_at : Option ℤ) : Bool :=
  match fetched_at with
  | none => false
  | some t => snapshots.any (fun r =>
      r.event_id == event_id && r.sportsbook_id == sportsbook_id &&
      r.provider == provider && r.fetched_at == t)

/-- `_to_decimal`. -/

def to_decimal : Option ℤ → Option ℚ
  | none => none
  | some price => some (american_to_implied_probability (some price))

/-- The snapshot row built for one bookmaker entry. -/

def snapshotRowFor (event : EventRow) (sportsbook : SportsbookRow) (provider : String)
    (now : ℤ) (fetched_at : Option ℤ) (market : RawMarket)
    (home_price away_price draw_price : Option ℤ) : SnapshotRow :=
  { event_id := event.id, sportsbook_id := sportsbook.id, provider := provider,
    fetched_at := fetched_at.getD now, market_key := (market.key.getD "h2h"),
    home_price := home_price, away_price := away_price, draw_price := draw_price,
    home_implied_prob := to_decimal home_price,
    away_implied_prob := to_decimal away_price,
    draw_implied_prob := to_decimal draw_price }

/-- The negation of the `if bookmakers and book_key not in bookmakers:
continue` filter: the entry survives when no allow-list is configured or
its key is on the list. -/

def book_allowed (cfgBooks : List String) (bookmaker : RawBookmaker) : Bool :=
  !(!cfgBooks.isEmpty &&
    !(match bookmaker.key with
      | some k => cfgBooks.contains k
      | none => false))

/-- The body of the inner bookmaker loop of `persist_snapshot_batch`:
skip entries filtered out by the allow-list, the lookup, or a missing
`h2h` market; count a duplicate or add the new row to the session.
`datetime.now(timezone.utc)` is modelled as the cycle-level instant
`now`. -/

def process_bookmaker (cfgBooks : List String) (lookup : List (String × SportsbookRow))
    (provider : String) (now : ℤ) (event : EventRow)
    (st : Store × ℤ × ℤ) (bookmaker : RawBookmaker) : Store × ℤ × ℤ :=
  let s := st.fst
  let inserted := st.snd.fst
  let skipped := st.snd.snd
  if !(book_allowed cfgBooks bookmaker) then st
  else
    match lookup_get lookup bookmaker.key with
    | none => st
    | some sportsbook =>
      let fetched_at := parse_datetime bookmaker.last_update
      match extract_market bookmaker.markets "h2h" with
      | none => st
      | some market =>
        let outcomes := map_outcomes market.outcomes
        let home_price := outcomes_get outcomes event.home_team
        let away_price := outcomes_get outcomes event.away_team
        let draw_price := draw_price_of outcomes
        if snapshot_exists s.snapshots event.id sportsbook.id provider fetched_at then
          (s, inserted, skipped + 1)
        else
          ({ s with snapshots := s.snapshots ++
              [snapshotRowFor event sportsbook provider now fetched_at market
                home_price away_price draw_price] },
           inserted + 1, skipped)

/-- The body of the outer payload loop: upsert the event, then fold the
bookmaker entries (an empty bookmaker list just continues). -/

def process_payload (cfgBooks : List String) (lookup : List (String × SportsbookRow))
    (now : ℤ) (st : Store × ℤ × ℤ) (payload : EventPayload) : Store × ℤ × ℤ :=
  let provider := payload.provider.getD "unknown"
  let up := upsert_event provider payload.sport_key payload.event st.fst
  payload.event.bookmakers.foldl
    (process_bookmaker cfgBooks lookup provider now up.fst)
    (up.snd, st.snd.fst, st.snd.snd)

/-- The observable result of `persist_snapshot_batch`: either a committed
store with the `inserted`/`skipped` counters the source logs, or a raised
`IntegrityError` together with the persistent state left behind after the
rollback. -/

inductive PersistOutcome where
  | ok (store : Store) (inserted skipped : ℤ)
  | integrityError (store : Store)
deriving DecidableEq

/-- Merge rows committed by a concurrent writer into the persistent
snapshot table. -/

def add_external (external : List SnapshotRow) (s : Store) : Store :=
  { s with snapshots := s.snapshots ++ external }

/-- `persist_snapshot_batch`: early return on no data; ensure (and commit)
sportsbooks; build the lookup; run the payload loop; then commit once,
rolling the event and snapshot writes back — but not the sportsbook
commit — if the uniqueness constraints are violated. -/

def persist_snapshot_batch (cfgBooks : List String) (now : ℤ)
    (external : List SnapshotRow) (store0 : Store) (data : List EventPayload) :
    PersistOutcome :=
  if data.isEmpty then PersistOutcome.ok (add_external external store0) 0 0
  else
    match ensure_sportsbooks cfgBooks store0 with
    | Except.error _ => PersistOutcome.integrityError (add_external external store0)
    | Except.ok store1 =>
      let lookup := sportsbook_lookup cfgBooks store1.sportsbooks
      let res := data.foldl (process_payload cfgBooks lookup now) (store1, 0, 0)
      let final := add_external external res.fst
      if storeOk final then PersistOutcome.ok final res.snd.fst res.snd.snd
      else PersistOutcome.integrityError (add_external external store1)

/-- Projection: the inserted counter of a successful run. -/

def outcomeInserted : PersistOutcome → Option ℤ
  | PersistOutcome.ok _ inserted _ => some inserted
  | PersistOutcome.integrityError _ => none

/-- Projection: the skipped-duplicate counter of a successful run. -/

def outcomeSkipped : PersistOutcome → Option ℤ
  | PersistOutcome.ok _ _ skipped => some skipped
  | PersistOutcome.integrityError _ => none

/-- Projection: the persistent store an outcome leaves behind. -/

def outcomeStore : PersistOutcome → Store
  | PersistOutcome.ok s _ _ => s
  | PersistOutcome.integrityError s => s

/-- Projection: whether the run raised `IntegrityError`. -/

def outcomeRaised : PersistOutcome → Bool
  | PersistOutcome.ok _ _ _ => false
  | PersistOutcome.integrityError _ => true

/-- The configuration of the spec's §8 worked example: threshold 20 cents,
no cooldown, multipliers 2.0 and 3.0. -/

def c1_cfg : DetectorConfig :=
  { threshold_cents := 20, cooldown_minutes := 0, medium_multiplier := 2, high_multiplier := 3 }

/-- Snapshot A of the spec's §8 worked example: home −150, away +130. -/

def c1_snapshotA : Snapshot :=
  { id := 1, event_id := 7, sportsbook_id := 3, fetched_at := 1000,
    home_price := some (-150), away_price := some 130 }

/-- Snapshot B of the spec's §8 worked example: home −150, away +160,
fetched after A. -/

def c1_snapshotB : Snapshot :=
  { id := 2, event_id := 7, sportsbook_id := 3, fetched_at := 2000,
    home_price := some (-150), away_price := some 160 }

/-- The reversed pair: previous snapshot with away +160. -/

def c1_amended_prev : Snapshot :=
  { id := 1, event_id := 7, sportsbook_id := 3, fetched_at := 1000,
    home_price := some (-150), away_price := some 160 }

/-- The reversed pair: current snapshot with away +130, fetched later. -/

def c1_amended_curr : Snapshot :=
  { id := 2, event_id := 7, sportsbook_id := 3, fetched_at := 2000,
    home_price := some (-150), away_price := some 130 }

/-- A current snapshot whose market flipped: home became the underdog. -/

def c8_flip_curr : Snapshot :=
  { id := 2, event_id := 7, sportsbook_id := 3, fetched_at := 2000,
    home_price := some 130, away_price := some (-150) }

/-- Two recommendation rows target the same (event, sportsbook, bet_side)
triple. -/

def sameTriple (a b : RecRow) : Prop :=
  a.event_id = b.event_id ∧ a.sportsbook_id = b.sportsbook_id ∧ a.bet_side = b.bet_side

/-- The §3 invariant: among the stored recommendations, any two for the
same triple have trigger timestamps strictly more than the cooldown window
apart. -/

def CooldownInvariant (cooldown_minutes : ℤ) (recs : List RecRow) : Prop :=
  recs.Pairwise
    (fun a b => sameTriple a b → 60 * cooldown_minutes < |a.triggered_at - b.triggered_at|)

/-- A configuration with a one-minute cooldown. -/

def c6_cfg : DetectorConfig :=
  { threshold_cents := 20, cooldown_minutes := 1, medium_multiplier := 2, high_multiplier := 3 }

/-- The list a single provider contributes to the aggregate: its result on
success, nothing when its call raises. -/

def provider_result {α : Type} (sports : List String) (p : OddsProvider α) : List α :=
  match p.fetch sports with
  | Except.ok result => result
  | Except.error _ => []

/-- Two providers whose calls always raise. -/

def c9_providers : List (OddsProvider EventPayload) :=
  [{ name := "theoddsapi", fetch := fun _ => Except.error "rate limited" },
   { name := "backup", fetch := fun _ => Except.error "socket timeout" }]

/-! ## Concrete fixtures for the normalizer claims -/

/-- An empty database. -/

def ex_store0 : Store :=
  { sportsbooks := [], events := [], snapshots := [], next_sportsbook_id := 1, next_event_id := 1 }

/-- A raw `h2h` market quoting both teams. -/

def ex_market : RawMarket :=
  { key := some "h2h",
    outcomes := [{ name := some "Bulls", price := some (-150) },
                 { name := some "Knicks", price := some 130 }] }

/-- A configured bookmaker entry with a parseable `last_update`. -/

def ex_bookmaker : RawBookmaker :=
  { key := some "draftkings", title := some "DraftKings",
    last_update := some (RawTime.iso 100), markets := [ex_market] }

/-- The same bookmaker entry with a `last_update` string `isoparse`
rejects. -/

def ex_bookmaker_badtime : RawBookmaker :=
  { key := some "draftkings", title := some "DraftKings",
    last_update := some RawTime.unparseable, markets := [ex_market] }

def ex_eventdata : RawEventData :=
  { id := some "ev1", commence_time := none, home_team := some "Bulls",
    away_team := some "Knicks", sport_title := some "NBA", bookmakers := [ex_bookmaker] }

def ex_eventdata_badtime : RawEventData :=
  { id := some "ev1", commence_time := none, home_team := some "Bulls",
    away_team := some "Knicks", sport_title := some "NBA", bookmakers := [ex_bookmaker_badtime] }

/-- One provider-tagged payload. -/

def ex_payload : EventPayload :=
  { provider := some "theoddsapi", sport_key := some "basketball_nba", event := ex_eventdata }

/-- The same payload whose bookmaker timestamp does not parse. -/

def ex_payload_badtime : EventPayload :=
  { provider := some "theoddsapi", sport_key := some "basketball_nba",
    event := ex_eventdata_badtime }

/-- A snapshot row a concurrent writer commits between the cycle's
duplicate check and its commit, colliding with the row the cycle is about
to insert. -/

def c3_external_row : SnapshotRow :=
  { event_id := 1, sportsbook_id := 1, provider := "theoddsapi", fetched_at := 100,
    market_key := "h2h", home_price := none, away_price := none, draw_price := none,
    home_implied_prob := none, away_implied_prob := none, draw_implied_prob := none }

instance {e a : Type} [DecidableEq e] [DecidableEq a] : DecidableEq (Except e a) := fun x y =>
  match x, y with
  | Except.error e1, Except.error e2 => decidable_of_iff (e1 = e2) (by simp)
  | Except.ok a1, Except.ok a2 => decidable_of_iff (a1 = a2) (by simp)
  | Except.error _, Except.ok _ => isFalse (fun hc => Except.noConfusion hc)
  | Except.ok _, Except.error _ => isFalse (fun hc => Except.noConfusion hc)

/-- The store after `_ensure_sportsbooks` has created the configured
bookmaker in its own committed transaction. -/

def c3_store1 : Store :=
  { sportsbooks := [{ id := 1, key := "draftkings", name := "draftkings".capitalize }],
    events := [], snapshots := [], next_sportsbook_id := 2, next_event_id := 1 }

/-- A store already holding the event, the sportsbook and the very
snapshot row that `ex_payload` produces. -/

def c2_store_pre : Store :=
  { sportsbooks := [{ id := 1, key := "draftkings", name := "Draftkings" }],
    events := [{ id := 1, provider := "theoddsapi", provider_event_id := some "ev1",
                 sport_key := some "basketball_nba", commence_time := none,
                 home_team := some "Bulls", away_team := some "Knicks",
                 league := some "NBA" }],
    snapshots := [{ event_id := 1, sportsbook_id := 1, provider := "theoddsapi",
                    fetched_at := 100, market_key := "h2h", home_price := none,
                    away_price := none, draw_price := none, home_implied_prob := none,
                    away_implied_prob := none, draw_implied_prob := none }],
    next_sportsbook_id := 2, next_event_id := 2 }

/-- A bookmaker entry reaches the duplicate check: it passes the
allow-list, the sportsbook lookup and the `h2h` market extraction. -/

def reaches (cfgBooks : List String) (lookup : List (String × SportsbookRow))
    (bookmaker : RawBookmaker) : Bool :=
  book_allowed cfgBooks bookmaker && (lookup_get lookup bookmaker.key).isSome &&
    (extract_market bookmaker.markets "h2h").isSome

/-- How many bookmaker entries of a payload reach the duplicate check. -/

def reachCount (cfgBooks : List String) (lookup : List (String × SportsbookRow))
    (p : EventPayload) : ℕ :=
  p.event.bookmakers.countP (reaches cfgBooks lookup)

/-- Total duplicate-check reach over a batch. -/

def totalReach (cfgBooks : List String) (lookup : List (String × SportsbookRow))
    (data : List EventPayload) : ℕ :=
  (data.map (reachCount cfgBooks lookup)).sum

/-- The id of the event row stored under a (provider, provider_event_id)
key, as `_upsert_event`'s query sees it. -/

def findEventId (events : List EventRow) (pr : String) (pid : Option String) : Option ℤ :=
  (events.find? (fun e => e.provider == pr && e.provider_event_id == pid)).map EventRow.id

/-- After a payload has been persisted: its event row is stored under the
payload's key, and every bookmaker entry that reaches the duplicate check
with a parseable fetch time has its snapshot key stored. -/

def payloadPersisted (cfgBooks : List String) (lookup : List (String × SportsbookRow))
    (S : Store) (p : EventPayload) : Prop :=
  ∃ eid, findEventId S.events (p.provider.getD "unknown") p.event.id = some eid ∧
    ∀ bk ∈ p.event.bookmakers, ∀ sb t,
      reaches cfgBooks lookup bk = true →
      lookup_get lookup bk.key = some sb →
      parse_datetime bk.last_update = some t →
      snapshot_exists S.snapshots eid sb.id (p.provider.getD "unknown") (some t) = true

/-- A payload with no bookmaker entries, for exercising the batch re-run. -/

def c2w_payload : EventPayload :=
  { provider := some "oddsapi", sport_key := some "nba",
    event := { id := some "ev1", commence_time := none, home_team := some "A",
               away_team := some "B", sport_title := some "NBA", bookmakers := [] } }

/-- The store committed by a first run over `c2w_payload`. -/

def c2w_S1 : Store :=
  { sportsbooks := [],
    events := [{ id := 1, provider := "oddsapi", provider_event_id := some "ev1",
                 sport_key := some "nba", commence_time := none, home_team := some "A",
                 away_team := some "B", league := some "NBA" }],
    snapshots := [], next_sportsbook_id := 1, next_event_id := 2 }

/-! ## Theorems -/

/-! ### Correctness of the rounding model -/

theorem natLog10Aux_correct (fuel n : ℕ) (h1 : 1 ≤ n) (hf : n ≤ fuel) :
    10 ^ natLog10Aux fuel n ≤ n ∧ n < 10 ^ (natLog10Aux fuel n + 1) := by
  induction fuel generalizing n with
  | zero => omega
  | succ fuel ih =>
    show 10 ^ (if n < 10 then 0 else 1 + natLog10Aux fuel (n / 10)) ≤ n ∧
      n < 10 ^ ((if n < 10 then 0 else 1 + natLog10Aux fuel (n / 10)) + 1)
    by_cases hn : n < 10
    · simp only [if_pos hn]
      constructor
      · simpa using h1
      · simpa using hn
    · simp only [if_neg hn]
      push_neg at hn
      have hd1 : 1 ≤ n / 10 := Nat.one_le_div_iff (by norm_num) |>.mpr hn
      have hdf : n / 10 ≤ fuel := by
        have : n / 10 < n := Nat.div_lt_self (by omega) (by norm_num)
        omega
      obtain ⟨hlo, hhi⟩ := ih (n / 10) hd1 hdf
      constructor
      · calc 10 ^ (1 + natLog10Aux fuel (n / 10))
            = 10 * 10 ^ natLog10Aux fuel (n / 10) := by ring
          _ ≤ 10 * (n / 10) := by omega
          _ ≤ n := Nat.mul_div_le n 10
      · have h4 : n < 10 * (n / 10 + 1) := by omega
        have h5 : 10 * (n / 10 + 1) ≤ 10 * 10 ^ (natLog10Aux fuel (n / 10) + 1) := by
          have := hhi
          omega
        have h6 : 10 * 10 ^ (natLog10Aux fuel (n / 10) + 1) =
            10 ^ (1 + natLog10Aux fuel (n / 10) + 1) := by ring
        omega

theorem natLog10_correct (n : ℕ) (h1 : 1 ≤ n) :
    10 ^ natLog10 n ≤ n ∧ n < 10 ^ (natLog10 n + 1) :=
  natLog10Aux_correct n n h1 le_rfl

theorem ratLog10_correct (q : ℚ) (hq : 0 < q) :
    (10:ℚ) ^ ratLog10 q ≤ q ∧ q < (10:ℚ) ^ (ratLog10 q + 1) := by
  have hnum : 0 < q.num := Rat.num_pos.mpr hq
  have ha1 : 1 ≤ q.num.toNat := by omega
  have hb1 : 1 ≤ q.den := q.pos
  obtain ⟨hal, hau⟩ := natLog10_correct q.num.toNat ha1
  obtain ⟨hbl, hbu⟩ := natLog10_correct q.den hb1
  have hbQ : (0:ℚ) < (q.den : ℚ) := by exact_mod_cast q.pos
  have haQ : ((q.num.toNat : ℕ) : ℚ) = ((q.num : ℤ) : ℚ) := by
    have h := Int.toNat_of_nonneg hnum.le
    exact_mod_cast congrArg (fun z : ℤ => (z : ℚ)) h
  have hqb : ((q.num.toNat : ℕ) : ℚ) = q * (q.den : ℚ) := by
    rw [haQ]
    exact (div_eq_iff (ne_of_gt hbQ)).mp (Rat.num_div_den q)
  have hten : (10:ℚ) ≠ 0 := by norm_num
  set da := natLog10 q.num.toNat with hda
  set db := natLog10 q.den with hdb
  -- upper bound: q < 10 ^ (da - db + 1)
  have hup : q < (10:ℚ) ^ ((da : ℤ) - db + 1) := by
    rw [← mul_lt_mul_right hbQ, ← hqb]
    have hX10 : (10:ℚ) ^ ((da : ℤ) - db + 1) * (10:ℚ) ^ (db : ℕ) = (10:ℚ) ^ (da + 1 : ℕ) := by
      rw [← zpow_natCast (10:ℚ) db, ← zpow_add₀ hten, ← zpow_natCast (10:ℚ) (da + 1)]
      congr 1
      push_cast
      ring
    have hXpos : (0:ℚ) < (10:ℚ) ^ ((da : ℤ) - db + 1) := by positivity
    calc ((q.num.toNat : ℕ) : ℚ) < (10:ℚ) ^ (da + 1 : ℕ) := by exact_mod_cast hau
      _ = (10:ℚ) ^ ((da : ℤ) - db + 1) * (10:ℚ) ^ (db : ℕ) := hX10.symm
      _ ≤ (10:ℚ) ^ ((da : ℤ) - db + 1) * (q.den : ℚ) := by
          apply mul_le_mul_of_nonneg_left _ hXpos.le
          exact_mod_cast hbl
  -- lower bound: 10 ^ (da - db - 1) < q
  have hlo : (10:ℚ) ^ ((da : ℤ) - db - 1) < q := by
    rw [← mul_lt_mul_right hbQ, ← hqb]
    have hY10 : (10:ℚ) ^ ((da : ℤ) - db - 1) * (10:ℚ) ^ (db + 1 : ℕ) = (10:ℚ) ^ (da : ℕ) := by
      rw [← zpow_natCast (10:ℚ) (db + 1), ← zpow_add₀ hten, ← zpow_natCast (10:ℚ) da]
      congr 1
      push_cast
      ring
    have hYpos : (0:ℚ) < (10:ℚ) ^ ((da : ℤ) - db - 1) := by positivity
    calc (10:ℚ) ^ ((da : ℤ) - db - 1) * (q.den : ℚ)
        < (10:ℚ) ^ ((da : ℤ) - db - 1) * (10:ℚ) ^ (db + 1 : ℕ) := by
          apply mul_lt_mul_of_pos_left _ hYpos
          exact_mod_cast hbu
      _ = (10:ℚ) ^ (da : ℕ) := hY10
      _ ≤ ((q.num.toNat : ℕ) : ℚ) := by exact_mod_cast hal
  rw [ratLog10]
  simp only [← hda, ← hdb]
  by_cases hcase : (10:ℚ) ^ ((da : ℤ) - db) ≤ q
  · rw [if_pos hcase]
    exact ⟨hcase, hup⟩
  · rw [if_neg hcase]
    push_neg at hcase
    have he : (da : ℤ) - db - 1 + 1 = (da : ℤ) - db := by ring
    refine ⟨hlo.le, ?_⟩
    rw [he]
    exact hcase

/-- The floor logarithm is unique: any exponent bracketing `q` is `ratLog10 q`. -/

theorem ratLog10_unique (q : ℚ) (e : ℤ) (hq : 0 < q)
    (hl : (10:ℚ) ^ e ≤ q) (hu : q < (10:ℚ) ^ (e + 1)) : ratLog10 q = e := by
  obtain ⟨hl0, hu0⟩ := ratLog10_correct q hq
  have h10 : (1:ℚ) < 10 := by norm_num
  by_contra hne
  rcases lt_or_gt_of_ne hne with hlt | hgt
  · have h1 : ratLog10 q + 1 ≤ e := by omega
    have h2 : (10:ℚ) ^ (ratLog10 q + 1) ≤ (10:ℚ) ^ e :=
      zpow_le_zpow_right₀ h10.le h1
    exact absurd (lt_of_lt_of_le hu0 (h2.trans hl)) (lt_irrefl q)
  · have h1 : e + 1 ≤ ratLog10 q := by omega
    have h2 : (10:ℚ) ^ (e + 1) ≤ (10:ℚ) ^ ratLog10 q :=
      zpow_le_zpow_right₀ h10.le h1
    exact absurd (lt_of_lt_of_le hu (h2.trans hl0)) (lt_irrefl q)

theorem roundHalfEven_abs_le (q : ℚ) : |(roundHalfEven q : ℚ) - q| ≤ 1/2 := by
  have hfl : (⌊q⌋ : ℚ) ≤ q := Int.floor_le q
  have hfu : q < ⌊q⌋ + 1 := Int.lt_floor_add_one q
  rw [roundHalfEven]
  by_cases h1 : q - ⌊q⌋ < 1/2
  · rw [if_pos h1]
    rw [abs_le]
    constructor <;> linarith
  · rw [if_neg h1]
    push_neg at h1
    by_cases h2 : 1/2 < q - ⌊q⌋
    · rw [if_pos h2]
      rw [abs_le]
      push_cast
      constructor <;> linarith
    · rw [if_neg h2]
      push_neg at h2
      by_cases h3 : ⌊q⌋ % 2 = 0
      · rw [if_pos h3]
        rw [abs_le]
        constructor <;> linarith
      · rw [if_neg h3]
        rw [abs_le]
        push_cast
        constructor <;> linarith

theorem roundHalfEven_intCast (n : ℤ) : roundHalfEven (n : ℚ) = n := by
  rw [roundHalfEven, Int.floor_intCast]
  rw [if_pos]
  rw [sub_self]
  norm_num

/-- Evaluation rule for rounding when the floor and the fractional part's
relation to 1/2 are known: fraction below one half rounds down. -/

theorem roundHalfEven_eq_low (q : ℚ) (f : ℤ) (hf : ⌊q⌋ = f) (h : q - f < 1/2) :
    roundHalfEven q = f := by
  rw [roundHalfEven, hf, if_pos h]

/-- Evaluation rule for rounding: fraction above one half rounds up. -/

theorem roundHalfEven_eq_high (q : ℚ) (f : ℤ) (hf : ⌊q⌋ = f) (h : 1/2 < q - f) :
    roundHalfEven q = f + 1 := by
  rw [roundHalfEven, hf, if_neg (by linarith), if_pos h]

theorem roundSig_nonneg_of_pos (q : ℚ) (hq : 0 < q) :
    roundSig 12 q = roundSigPos 12 q := by
  rw [roundSig, if_pos hq]

/-- The scale used by twelve-digit rounding, written with the exponent
`11 - ratLog10 q`. -/

theorem roundSigPos_eq (q : ℚ) : roundSigPos 12 q =
    (roundHalfEven (q * 10 ^ ((11:ℤ) - ratLog10 q)) : ℚ) / 10 ^ ((11:ℤ) - ratLog10 q) := by
  rw [roundSigPos]
  norm_num

/-- Error bound of 12-significant-digit rounding on positive inputs:
the result is within a relative error of `5 * 10^(-12)`. -/

theorem roundSig_abs_err (q : ℚ) (hq : 0 < q) :
    |roundSig 12 q - q| ≤ q / 200000000000 := by
  obtain ⟨hel, heu⟩ := ratLog10_correct q hq
  rw [roundSig_nonneg_of_pos q hq, roundSigPos_eq]
  have hten : (10:ℚ) ≠ 0 := by norm_num
  set e := ratLog10 q with he
  set s : ℤ := (11 : ℤ) - e with hs
  have hspos : (0:ℚ) < (10:ℚ) ^ s := by positivity
  have hround := roundHalfEven_abs_le (q * 10 ^ s)
  have hkey : |(roundHalfEven (q * 10 ^ s) : ℚ) / 10 ^ s - q| =
      |(roundHalfEven (q * 10 ^ s) : ℚ) - q * 10 ^ s| / (10:ℚ) ^ s := by
    have hsplit : (roundHalfEven (q * 10 ^ s) : ℚ) / 10 ^ s - q =
        ((roundHalfEven (q * 10 ^ s) : ℚ) - q * 10 ^ s) / 10 ^ s := by
      field_simp
      ring
    rw [hsplit, abs_div, abs_of_pos hspos]
  rw [hkey]
  have h2 : |(roundHalfEven (q * 10 ^ s) : ℚ) - q * 10 ^ s| / (10:ℚ) ^ s ≤
      (1/2) / (10:ℚ) ^ s := by
    gcongr
  have h3 : (1/2) / (10:ℚ) ^ s = (1/2) * (10:ℚ) ^ (e - 11) := by
    rw [hs, div_eq_mul_inv, ← zpow_neg]
    congr 2
    ring
  have h4 : (1/2) * (10:ℚ) ^ (e - 11) ≤ q / 200000000000 := by
    have h5 : (10:ℚ) ^ (e - 11) = (10:ℚ) ^ e * (10:ℚ) ^ (-(11:ℤ)) := by
      rw [sub_eq_add_neg, zpow_add₀ hten]
    have h6 : (10:ℚ) ^ (-(11:ℤ)) = 1 / 100000000000 := by
      norm_num
    rw [h5, h6]
    calc (1/2) * ((10:ℚ) ^ e * (1 / 100000000000))
        ≤ (1/2) * (q * (1 / 100000000000)) := by
          apply mul_le_mul_of_nonneg_left _ (by norm_num)
          apply mul_le_mul_of_nonneg_right hel (by norm_num)
      _ = q / 200000000000 := by ring
  calc |(roundHalfEven (q * 10 ^ s) : ℚ) - q * 10 ^ s| / (10:ℚ) ^ s
      ≤ (1/2) / (10:ℚ) ^ s := h2
    _ = (1/2) * (10:ℚ) ^ (e - 11) := h3
    _ ≤ q / 200000000000 := h4

theorem roundSig_zero : roundSig 12 0 = 0 := by
  rw [roundSig, if_neg (lt_irrefl (0:ℚ)), if_neg (lt_irrefl (0:ℚ))]

/-- Lower bound: rounding keeps positive values positive. -/

theorem roundSig_ge (q : ℚ) (hq : 0 < q) :
    q - q / 200000000000 ≤ roundSig 12 q := by
  have h := abs_le.mp (roundSig_abs_err q hq)
  linarith [h.1]

theorem roundSig_le (q : ℚ) (hq : 0 < q) :
    roundSig 12 q ≤ q + q / 200000000000 := by
  have h := abs_le.mp (roundSig_abs_err q hq)
  linarith [h.2]

theorem roundSig_pos (q : ℚ) (hq : 0 < q) : 0 < roundSig 12 q := by
  have h := roundSig_ge q hq
  have : 0 < q - q / 200000000000 := by linarith
  linarith

/-- Rounding to 12 significant digits is exact on natural numbers below
`10^12`. -/

theorem roundSig_natCast (n : ℕ) (hn : n < 10 ^ 12) : roundSig 12 (n : ℚ) = n := by
  rcases Nat.eq_zero_or_pos n with h0 | hpos
  · subst h0
    rw [Nat.cast_zero, roundSig_zero]
  · have hq : (0:ℚ) < (n:ℚ) := by exact_mod_cast hpos
    obtain ⟨hel, heu⟩ := ratLog10_correct (n:ℚ) hq
    set e := ratLog10 (n:ℚ) with he_def
    have h10 : (1:ℚ) < 10 := by norm_num
    have hn12 : ((n:ℕ):ℚ) < (10:ℚ) ^ (12:ℤ) := by
      have : ((n:ℕ):ℚ) < ((10 ^ 12 : ℕ) : ℚ) := by exact_mod_cast hn
      calc ((n:ℕ):ℚ) < ((10 ^ 12 : ℕ) : ℚ) := this
        _ = (10:ℚ) ^ (12:ℤ) := by norm_num
    have he_le : e ≤ 11 := by
      by_contra hcon
      push_neg at hcon
      have h1 : (12:ℤ) ≤ e := by omega
      have h2 : ((10:ℚ) ^ (12:ℤ)) ≤ (10:ℚ) ^ e := zpow_le_zpow_right₀ h10.le h1
      linarith [h2.trans hel]
    have he_nonneg : 0 ≤ e := by
      by_contra hcon
      push_neg at hcon
      have h1 : e + 1 ≤ 0 := by omega
      have h2 : ((10:ℚ) ^ (e + 1)) ≤ (10:ℚ) ^ (0:ℤ) := zpow_le_zpow_right₀ h10.le h1
      have h3 : ((10:ℚ) ^ (0:ℤ)) = 1 := by norm_num
      have h4 : (1:ℚ) ≤ (n:ℚ) := by exact_mod_cast hpos
      linarith
    set t : ℕ := ((11:ℤ) - e).toNat with ht_def
    have hs_eq : ((11:ℤ) - e) = (t:ℤ) := by
      rw [ht_def]
      omega
    rw [roundSig_nonneg_of_pos _ hq, roundSigPos_eq, ← he_def, hs_eq]
    have hcast : (n:ℚ) * (10:ℚ) ^ ((t:ℕ):ℤ) = (((n * 10 ^ t : ℕ) : ℤ) : ℚ) := by
      rw [zpow_natCast]
      push_cast
      ring
    rw [hcast, roundHalfEven_intCast]
    have hpow_pos : (0:ℚ) < (10:ℚ) ^ ((t:ℕ):ℤ) := by positivity
    rw [div_eq_iff (ne_of_gt hpow_pos), zpow_natCast]
    push_cast
    ring

/-- Evaluation rule for 12-significant-digit rounding with an explicitly
supplied exponent bracket. -/

theorem roundSig_eval (q : ℚ) (e m : ℤ) (hq : 0 < q)
    (hl : (10:ℚ) ^ e ≤ q) (hu : q < (10:ℚ) ^ (e + 1))
    (hm : roundHalfEven (q * 10 ^ ((11:ℤ) - e)) = m) :
    roundSig 12 q = (m : ℚ) / 10 ^ ((11:ℤ) - e) := by
  rw [roundSig_nonneg_of_pos _ hq, roundSigPos_eq, ratLog10_unique q e hq hl hu, hm]

/-- Evaluation rule for `quantize`. -/

theorem quantize_eval (d : ℕ) (q : ℚ) (m : ℤ)
    (hm : roundHalfEven (q * 10 ^ d) = m) :
    quantize d q = (m : ℚ) / 10 ^ d := by
  rw [quantize, hm]

/-! ## Evaluation lemmas for the probability converter -/

/-- Rounding to 12 significant digits is exact on integers of magnitude
below `10^12`. -/

theorem roundSig_intCast (n : ℤ) (h0 : 0 ≤ n) (hlt : n < 10 ^ 12) :
    roundSig 12 ((n:ℤ) : ℚ) = ((n:ℤ) : ℚ) := by
  have hc : ((n.toNat : ℕ) : ℚ) = ((n:ℤ) : ℚ) := by
    exact_mod_cast Int.toNat_of_nonneg h0
  rw [← hc, roundSig_natCast n.toNat (by omega)]

/-- On positive prices small enough that the sum stays within 12 digits,
the converter is the 12-digit rounding of the exact quotient. -/

theorem american_pos_small (p : ℤ) (hp : 0 < p) (hsmall : p + 100 < 10 ^ 12) :
    american_to_implied_probability (some p) = roundSig 12 (100 / ((p:ℚ) + 100)) := by
  have hpq : (0:ℚ) < (p:ℚ) := by exact_mod_cast hp
  have hcast : (p:ℚ) + 100 = (((p + 100 : ℤ)) : ℚ) := by push_cast; ring
  have hadd : decAdd (p:ℚ) 100 = (p:ℚ) + 100 := by
    rw [decAdd, hcast, roundSig_intCast (p + 100) (by omega) hsmall]
  simp only [american_to_implied_probability]
  rw [if_pos hpq, decDiv, hadd]

/-- On non-positive prices small enough in magnitude, the converter is the
12-digit rounding of `-p / (-p + 100)`. -/

theorem american_nonpos_small (p : ℤ) (hp : p ≤ 0) (hsmall : -p + 100 < 10 ^ 12) :
    american_to_implied_probability (some p) =
      roundSig 12 ((-(p:ℚ)) / (-(p:ℚ) + 100)) := by
  have hpq : ¬ (0:ℚ) < (p:ℚ) := by
    push_neg
    exact_mod_cast hp
  have hc1 : -(p:ℚ) = (((-p : ℤ)) : ℚ) := by push_cast; ring
  have hneg : decNeg (p:ℚ) = -(p:ℚ) := by
    rw [decNeg, hc1, roundSig_intCast (-p) (by omega) (by omega)]
  have hc2 : -(p:ℚ) + 100 = (((-p + 100 : ℤ)) : ℚ) := by push_cast; ring
  have hadd : decAdd (-(p:ℚ)) 100 = -(p:ℚ) + 100 := by
    rw [decAdd, hc2, roundSig_intCast (-p + 100) (by omega) hsmall]
  simp only [american_to_implied_probability]
  rw [if_neg hpq, decDiv, hneg, hadd]

/-- Concrete value: a price of `-150` has implied probability exactly
`0.6`. -/

theorem prob_neg150 : american_to_implied_probability (some (-150)) = 3/5 := by
  rw [american_nonpos_small (-150) (by norm_num) (by norm_num)]
  have h1 : (-((-150:ℤ):ℚ)) / (-((-150:ℤ):ℚ) + 100) = 3/5 := by norm_num
  rw [h1]
  rw [roundSig_eval (3/5) (-1) 600000000000 (by norm_num) (by norm_num) (by norm_num)
    (roundHalfEven_eq_low _ 600000000000 (by norm_num) (by norm_num))]
  norm_num

/-- Concrete value: a price of `+130` has implied probability
`0.434782608696`, the 12-digit rounding of `10/23`. -/

theorem prob_130 : american_to_implied_probability (some 130) = 434782608696/1000000000000 := by
  rw [american_pos_small 130 (by norm_num) (by norm_num)]
  have h1 : (100:ℚ) / (((130:ℤ):ℚ) + 100) = 10/23 := by norm_num
  rw [h1]
  rw [roundSig_eval (10/23) (-1) 434782608696 (by norm_num) (by norm_num) (by norm_num)
    (roundHalfEven_eq_high _ 434782608695 (by norm_num) (by norm_num))]
  norm_num

/-- Concrete value: a price of `+160` has implied probability
`0.384615384615`, the 12-digit rounding of `5/13`. -/

theorem prob_160 : american_to_implied_probability (some 160) = 384615384615/1000000000000 := by
  rw [american_pos_small 160 (by norm_num) (by norm_num)]
  have h1 : (100:ℚ) / (((160:ℤ):ℚ) + 100) = 5/13 := by norm_num
  rw [h1]
  rw [roundSig_eval (5/13) (-1) 384615384615 (by norm_num) (by norm_num) (by norm_num)
    (roundHalfEven_eq_low _ 384615384615 (by norm_num) (by norm_num))]
  norm_num

/-- Concrete value: a price of `0` maps to probability `0`. -/

theorem prob_zero : american_to_implied_probability (some 0) = 0 := by
  rw [american_nonpos_small 0 (by norm_num) (by norm_num)]
  have h1 : (-((0:ℤ):ℚ)) / (-((0:ℤ):ℚ) + 100) = 0 := by norm_num
  rw [h1, roundSig_zero]

/-- Helper: the underdog is the away side when its probability is strictly
lower. -/

theorem identify_underdog_away (d : Prices)
    (h : d.away.probability < d.home.probability) :
    identify_underdog d = some "away" := by
  rw [identify_underdog, if_neg (ne_of_gt h), if_neg (not_lt.mpr h.le)]

/-- Helper: the underdog is the home side when its probability is strictly
lower. -/

theorem identify_underdog_home (d : Prices)
    (h : d.home.probability < d.away.probability) :
    identify_underdog d = some "home" := by
  rw [identify_underdog, if_neg (ne_of_lt h), if_pos h]

/-- Quantizing the implied probability of `+160` to six places. -/

theorem q6_prob160 : quantize 6 (384615384615/1000000000000 : ℚ) = 384615/1000000 := by
  rw [quantize_eval 6 _ 384615 (roundHalfEven_eq_low _ 384615 (by norm_num) (by norm_num))]
  norm_num

/-- Quantizing the implied probability of `+130` to six places. -/

theorem q6_prob130 : quantize 6 (434782608696/1000000000000 : ℚ) = 434783/1000000 := by
  rw [quantize_eval 6 _ 434783 (roundHalfEven_eq_high _ 434782 (by norm_num) (by norm_num))]
  norm_num

/-- Quantizing the probability `0.6` to six places is exact. -/

theorem q6_prob_neg150 : quantize 6 (3/5 : ℚ) = 3/5 := by
  rw [quantize_eval 6 _ 600000 (roundHalfEven_eq_low _ 600000 (by norm_num) (by norm_num))]
  norm_num

/-- The probability delta of the `+160 → +130` move before the final
quantize. -/

theorem dsub_away : decSub (434783/1000000 : ℚ) (384615/1000000 : ℚ) = 50168/1000000 := by
  rw [decSub]
  have h1 : (434783/1000000 : ℚ) - 384615/1000000 = 50168/1000000 := by norm_num
  rw [h1]
  rw [roundSig_eval _ (-2) 501680000000 (by norm_num) (by norm_num) (by norm_num)
    (roundHalfEven_eq_low _ 501680000000 (by norm_num) (by norm_num))]
  norm_num

/-- The probability delta of the `+160 → +130` move after the final
quantize to four places. -/

theorem q4_delta : quantize 4 (50168/1000000 : ℚ) = 502/10000 := by
  rw [quantize_eval 4 _ 502 (roundHalfEven_eq_high _ 501 (by norm_num) (by norm_num))]
  norm_num

/-- The prices of snapshot A as `_snapshot_prices` sees them. -/

theorem c1_pricesA : snapshot_prices c1_snapshotA =
    some { home := { price := -150, probability := 3/5 },
           away := { price := 130, probability := 434782608696/1000000000000 } } := by
  simp only [snapshot_prices, c1_snapshotA]
  rw [prob_neg150, prob_130]

/-- The prices of snapshot B as `_snapshot_prices` sees them. -/

theorem c1_pricesB : snapshot_prices c1_snapshotB =
    some { home := { price := -150, probability := 3/5 },
           away := { price := 160, probability := 384615384615/1000000000000 } } := by
  simp only [snapshot_prices, c1_snapshotB]
  rw [prob_neg150, prob_160]

theorem sideOf_away (d : Prices) : sideOf d "away" = d.away := by
  rw [sideOf, if_neg (by decide)]

theorem sideOf_home (d : Prices) : sideOf d "home" = d.home := by
  rw [sideOf, if_pos rfl]

theorem c1_eval_none : evaluate_movement c1_snapshotB c1_snapshotA = none := by
  simp only [evaluate_movement, c1_pricesA, c1_pricesB]
  rw [identify_underdog_away _ (by norm_num), identify_underdog_away _ (by norm_num)]
  simp only [sideOf_away]
  norm_num

/-- C1 counterexample.  For the spec's §8 example pair — snapshot A
(home −150, away +130) followed by snapshot B (home −150, away +160) with
threshold 20, cooldown 0, multipliers 2.0/3.0 and no prior
recommendations — the detector returns no signal, not the claimed
Recommendation: the away price lengthened from +130 to +160, so the
movement is `130 - 160 = -30 ≤ 0` and step 5 short-circuits. -/

theorem C1_counterexample :
    detect_reverse_line_move c1_cfg [] c1_snapshotB (some c1_snapshotA) = none := by
  simp only [detect_reverse_line_move, c1_eval_none]

theorem c1_amended_prices_prev : snapshot_prices c1_amended_prev =
    some { home := { price := -150, probability := 3/5 },
           away := { price := 160, probability := 384615384615/1000000000000 } } := by
  simp only [snapshot_prices, c1_amended_prev]
  rw [prob_neg150, prob_160]

theorem c1_amended_prices_curr : snapshot_prices c1_amended_curr =
    some { home := { price := -150, probability := 3/5 },
           away := { price := 130, probability := 434782608696/1000000000000 } } := by
  simp only [snapshot_prices, c1_amended_curr]
  rw [prob_neg150, prob_130]

theorem c1_amended_eval : evaluate_movement c1_amended_curr c1_amended_prev =
    some { bet_side := "away", movement_cents := 30, probability_delta := 502/10000,
           previous_price := 160, current_price := 130,
           previous_probability := 384615/1000000,
           current_probability := 434783/1000000 } := by
  simp only [evaluate_movement, c1_amended_prices_prev, c1_amended_prices_curr]
  rw [identify_underdog_away _ (by norm_num), identify_underdog_away _ (by norm_num)]
  simp only [sideOf_away]
  rw [q6_prob160, q6_prob130, dsub_away, q4_delta]
  norm_num

/-- C1 amended.  With the movement in the direction the detector (and spec
§4.4 step 5) actually requires — previous away +160, current away +130,
same configuration — the detector returns a Recommendation with
bet_side "away", movement_cents 30 and confidence "low". -/

theorem C1_amended :
    (detect_reverse_line_move c1_cfg [] c1_amended_curr
        (some c1_amended_prev)).map RecRow.bet_side = some "away" ∧
    (detect_reverse_line_move c1_cfg [] c1_amended_curr
        (some c1_amended_prev)).map RecRow.movement_cents = some 30 ∧
    (detect_reverse_line_move c1_cfg [] c1_amended_curr
        (some c1_amended_prev)).map RecRow.confidence = some "low" := by
  have hdet : detect_reverse_line_move c1_cfg [] c1_amended_curr (some c1_amended_prev) =
      some { event_id := 7, sportsbook_id := 3, snapshot_id := 2, triggered_at := 2000,
             direction := "reverse", movement_cents := 30, edge := 502/10000,
             confidence := "low", bet_side := "away", stake_units := none, status := "pending",
             details := { previous_price := 160, current_price := 130,
                          previous_probability := 384615/1000000,
                          current_probability := 434783/1000000,
                          probability_delta := 502/10000, threshold_cents := 20 } } := by
    simp only [detect_reverse_line_move]
    rw [c1_amended_eval]
    simp only [passes_cooldown, confidence_bucket, c1_cfg, c1_amended_curr]
    norm_num
  rw [hdet]
  exact ⟨rfl, rfl, rfl⟩

/-- C4 counterexample.  At the perfectly ordinary price `+130` the
converter does not return exactly `100/(130+100) = 10/23`: the division is
carried out at 12 significant digits (`getcontext().prec = 12`), giving
`0.434782608696`. -/

theorem C4_counterexample :
    american_to_implied_probability (some 130) ≠ 100 / (((130:ℤ):ℚ) + 100) := by
  rw [prob_130]
  norm_num

/-- C4 amended.  For every price of magnitude at most `10^11` (so that the
intermediate sum itself incurs no rounding) the converter returns the
12-significant-digit round-half-even value of the spec's exact formula —
not the exact quotient — and a missing price yields `Decimal("0")` rather
than an error. -/

theorem C4_amended :
    (∀ p : ℤ, -(10^11) ≤ p → p ≤ 10^11 →
      american_to_implied_probability (some p) =
        roundSig 12 (exact_implied_probability p)) ∧
    american_to_implied_probability none = 0 := by
  constructor
  · intro p hlo hhi
    by_cases hp : 0 < p
    · rw [american_pos_small p hp (by omega)]
      rw [exact_implied_probability, if_pos hp]
    · push_neg at hp
      rw [american_nonpos_small p hp (by omega)]
      rw [exact_implied_probability, if_neg (by omega)]
      have habs : |(p:ℚ)| = -(p:ℚ) := by
        apply abs_of_nonpos
        exact_mod_cast hp
      rw [habs]
  · rfl

/-- Witness for C4 amended at the price `+130`. -/

theorem C4_witness :
    american_to_implied_probability (some 130) =
      roundSig 12 (exact_implied_probability 130) :=
  C4_amended.1 130 (by norm_num) (by norm_num)

/-- With only 12 digits of precision, `10^15 + 100` rounds back to
`10^15`. -/

theorem roundSig_1e15_plus_100 : roundSig 12 ((10:ℚ)^15 + 100) = 10^15 := by
  rw [roundSig_eval _ 15 100000000000 (by norm_num) (by norm_num) (by norm_num)
    (roundHalfEven_eq_low _ 100000000000 (by norm_num) (by norm_num))]
  norm_num

/-- With only 12 digits of precision, `10^15 + 101` also rounds back to
`10^15`. -/

theorem roundSig_1e15_plus_101 : roundSig 12 ((10:ℚ)^15 + 101) = 10^15 := by
  rw [roundSig_eval _ 15 100000000000 (by norm_num) (by norm_num) (by norm_num)
    (roundHalfEven_eq_low _ 100000000000 (by norm_num) (by norm_num))]
  norm_num

theorem roundSig_1e15 : roundSig 12 ((10:ℚ)^15) = 10^15 := by
  rw [roundSig_eval _ 15 100000000000 (by norm_num) (by norm_num) (by norm_num)
    (roundHalfEven_eq_low _ 100000000000 (by norm_num) (by norm_num))]
  norm_num

theorem roundSig_1e13_inv : roundSig 12 (1/(10:ℚ)^13) = 1/10^13 := by
  rw [roundSig_eval _ (-13) 100000000000 (by norm_num) (by norm_num) (by norm_num)
    (roundHalfEven_eq_low _ 100000000000 (by norm_num) (by norm_num))]
  norm_num

theorem roundSig_one : roundSig 12 (1:ℚ) = 1 := by
  have h := roundSig_natCast 1 (by norm_num)
  rw [Nat.cast_one] at h
  exact h

/-- Concrete value at the huge price `+10^15`. -/

theorem prob_1e15 : american_to_implied_probability (some (10^15)) = 1/10^13 := by
  have hpq : (0:ℚ) < (((10:ℤ)^15 : ℤ):ℚ) := by norm_num
  simp only [american_to_implied_probability]
  rw [if_pos (by push_cast; norm_num), decDiv, decAdd]
  have h1 : (((10^15 : ℤ)):ℚ) + 100 = (10:ℚ)^15 + 100 := by push_cast; norm_num
  rw [h1, roundSig_1e15_plus_100]
  have h2 : (100:ℚ) / 10^15 = 1/10^13 := by norm_num
  rw [h2, roundSig_1e13_inv]

/-- Concrete value at the huge price `+10^15 + 1`: identical to the value
at `+10^15`, because the 12-digit context already rounds the sum. -/

theorem prob_1e15_succ : american_to_implied_probability (some (10^15 + 1)) = 1/10^13 := by
  simp only [american_to_implied_probability]
  rw [if_pos (by push_cast; norm_num), decDiv, decAdd]
  have h1 : (((10^15 + 1 : ℤ)):ℚ) + 100 = (10:ℚ)^15 + 101 := by push_cast; norm_num
  rw [h1, roundSig_1e15_plus_101]
  have h2 : (100:ℚ) / 10^15 = 1/10^13 := by norm_num
  rw [h2, roundSig_1e13_inv]

/-- Concrete value at the huge price `-10^15`: the converter returns
exactly `1`. -/

theorem prob_neg1e15 : american_to_implied_probability (some (-(10^15))) = 1 := by
  simp only [american_to_implied_probability]
  rw [if_neg (by push_cast; norm_num), decDiv, decNeg]
  have h1 : -(((-(10^15) : ℤ)):ℚ) = (10:ℚ)^15 := by push_cast; norm_num
  rw [h1, roundSig_1e15, decAdd, roundSig_1e15_plus_100]
  have h2 : (10:ℚ)^15 / ((10:ℚ)^15) = 1 := by norm_num
  rw [h2, roundSig_one]

/-- C5 counterexample.  Three violations of the claim over the full range
of signed integer prices: the price `0` (which the source's own branch
comment calls "even") yields probability `0`, outside `(0,1)`; the 12-digit
context collapses the distinct prices `10^15` and `10^15 + 1` to the same
probability, breaking strict monotonicity; and `-10^15` yields exactly `1`,
again outside `(0,1)`. -/

theorem C5_counterexample :
    ¬ (0 < american_to_implied_probability (some 0)) ∧
    american_to_implied_probability (some (10^15)) =
      american_to_implied_probability (some (10^15 + 1)) ∧
    american_to_implied_probability (some (-(10^15))) = 1 := by
  refine ⟨?_, ?_, prob_neg1e15⟩
  · rw [prob_zero]
    norm_num
  · rw [prob_1e15, prob_1e15_succ]

/-- C5 amended.  Over the range of realistic prices — nonzero magnitude at
most `10^6` — the converter's value lies strictly inside `(0,1)`, and on
positive prices up to `10^6` it is strictly decreasing. -/

theorem C5_amended :
    (∀ p : ℤ, p ≠ 0 → -(10^6) ≤ p → p ≤ 10^6 →
      0 < american_to_implied_probability (some p) ∧
        american_to_implied_probability (some p) < 1) ∧
    (∀ p1 p2 : ℤ, 0 < p1 → p1 < p2 → p2 ≤ 10^6 →
      american_to_implied_probability (some p2) <
        american_to_implied_probability (some p1)) := by
  constructor
  · intro p hne hlo hhi
    by_cases hp : 0 < p
    · rw [american_pos_small p hp (by omega)]
      have hp1 : (1:ℚ) ≤ (p:ℚ) := by exact_mod_cast hp
      set v : ℚ := 100 / ((p:ℚ) + 100) with hv
      have hvpos : 0 < v := by
        rw [hv]
        positivity
      have hvle : v ≤ 100/101 := by
        rw [hv, div_le_div_iff₀ (by linarith) (by norm_num)]
        linarith
      refine ⟨roundSig_pos v hvpos, ?_⟩
      have hle := roundSig_le v hvpos
      have hc : (100:ℚ)/101 + (100/101) / 200000000000 < 1 := by norm_num
      have hmono : v / 200000000000 ≤ (100/101 : ℚ) / 200000000000 := by linarith
      linarith
    · push_neg at hp
      rw [american_nonpos_small p hp (by omega)]
      have hn1 : (1:ℚ) ≤ -(p:ℚ) := by
        have : p ≤ -1 := by omega
        have h2 : (p:ℚ) ≤ -1 := by exact_mod_cast this
        linarith
      have hn6 : -(p:ℚ) ≤ 10^6 := by
        have : -p ≤ 10^6 := by omega
        have h2 : (-p : ℚ) ≤ ((10^6 : ℤ):ℚ) := by exact_mod_cast this
        push_cast at h2
        linarith
      set v : ℚ := -(p:ℚ) / (-(p:ℚ) + 100) with hv
      have hvpos : 0 < v := by
        rw [hv]
        have : (0:ℚ) < -(p:ℚ) := by linarith
        positivity
      have hvle : v ≤ 10000/10001 := by
        rw [hv, div_le_div_iff₀ (by linarith) (by norm_num)]
        linarith
      refine ⟨roundSig_pos v hvpos, ?_⟩
      have hle := roundSig_le v hvpos
      have hc : (10000:ℚ)/10001 + (10000/10001) / 200000000000 < 1 := by norm_num
      have hmono : v / 200000000000 ≤ (10000/10001 : ℚ) / 200000000000 := by linarith
      linarith
  · intro p1 p2 hp1 hlt hhi
    rw [american_pos_small p1 hp1 (by omega), american_pos_small p2 (by omega) (by omega)]
    set a : ℚ := (p1:ℚ) + 100 with ha_def
    set b : ℚ := (p2:ℚ) + 100 with hb_def
    have ha101 : (101:ℚ) ≤ a := by
      rw [ha_def]
      have : (1:ℚ) ≤ (p1:ℚ) := by exact_mod_cast hp1
      linarith
    have hab : a + 1 ≤ b := by
      rw [ha_def, hb_def]
      have : (p1:ℚ) + 1 ≤ (p2:ℚ) := by exact_mod_cast hlt
      linarith
    have hble : b ≤ 1000100 := by
      rw [hb_def]
      have : (p2:ℚ) ≤ ((10^6 : ℤ):ℚ) := by exact_mod_cast hhi
      push_cast at this
      linarith
    have hapos : (0:ℚ) < a := by linarith
    have hbpos : (0:ℚ) < b := by linarith
    have hv1pos : (0:ℚ) < 100 / a := by positivity
    have hv2pos : (0:ℚ) < 100 / b := by positivity
    have hkey : 100 / b + (100 / b) / 200000000000 <
        100 / a - (100 / a) / 200000000000 := by
      have hrw1 : 100 / b + (100 / b) / 200000000000 =
          (100 + 100 / 200000000000) / b := by
        field_simp
        ring
      have hrw2 : 100 / a - (100 / a) / 200000000000 =
          (100 - 100 / 200000000000) / a := by
        field_simp
        ring
      rw [hrw1, hrw2, div_lt_div_iff₀ hbpos hapos]
      nlinarith [hab, hble, ha101]
    have h1 := roundSig_le (100 / b) hv2pos
    have h2 := roundSig_ge (100 / a) hv1pos
    linarith

/-- Witness for C5 amended at the prices `-110`, and `150 < 200`. -/

theorem C5_witness :
    (0 < american_to_implied_probability (some (-110)) ∧
      american_to_implied_probability (some (-110)) < 1) ∧
    american_to_implied_probability (some 200) <
      american_to_implied_probability (some 150) :=
  ⟨C5_amended.1 (-110) (by norm_num) (by norm_num) (by norm_num),
   C5_amended.2 150 200 (by norm_num) (by norm_num) (by norm_num)⟩

/-- A snapshot missing either price yields no price dictionary. -/

theorem snapshot_prices_eq_none (s : Snapshot)
    (h : s.home_price = none ∨ s.away_price = none) : snapshot_prices s = none := by
  cases h1 : s.home_price with
  | none =>
    cases h2 : s.away_price <;> simp [snapshot_prices, h1, h2]
  | some hp =>
    cases h2 : s.away_price with
    | none => simp [snapshot_prices, h1, h2]
    | some ap =>
      rw [h1, h2] at h
      rcases h with h | h <;> simp at h

/-- A missing price dictionary on either snapshot short-circuits the
evaluation. -/

theorem evaluate_movement_none_of_prices (snapshot previous : Snapshot)
    (h : snapshot_prices previous = none ∨ snapshot_prices snapshot = none) :
    evaluate_movement snapshot previous = none := by
  cases hp : snapshot_prices previous <;>
    cases hc : snapshot_prices snapshot <;>
    simp_all [evaluate_movement]

/-- C10.  If either snapshot of the pair is missing its home price or its
away price — even when the other price of that snapshot is present — the
detector returns no signal. -/

theorem C10_theorem : ∀ (cfg : DetectorConfig) (existing : List RecRow)
    (snapshot previous : Snapshot),
    snapshot.home_price = none ∨ snapshot.away_price = none ∨
      previous.home_price = none ∨ previous.away_price = none →
    detect_reverse_line_move cfg existing snapshot (some previous) = none := by
  intro cfg existing snapshot previous h
  have heval : evaluate_movement snapshot previous = none := by
    apply evaluate_movement_none_of_prices
    rcases h with h | h | h | h
    · exact Or.inr (snapshot_prices_eq_none _ (Or.inl h))
    · exact Or.inr (snapshot_prices_eq_none _ (Or.inr h))
    · exact Or.inl (snapshot_prices_eq_none _ (Or.inl h))
    · exact Or.inl (snapshot_prices_eq_none _ (Or.inr h))
  simp only [detect_reverse_line_move, heval]

/-- Witness for C10: a current snapshot quoting only the away side is
ignored. -/

theorem C10_witness :
    detect_reverse_line_move c1_cfg []
      { id := 9, event_id := 7, sportsbook_id := 3, fetched_at := 3000,
        home_price := none, away_price := some 120 }
      (some c1_snapshotA) = none :=
  C10_theorem c1_cfg [] _ c1_snapshotA (Or.inl rfl)

/-- C8.  With both price dictionaries present, the detector returns no
signal whenever no underdog is identifiable in either snapshot (a perfect
probability tie) or the identified underdog side differs between the two
snapshots. -/

theorem C8_theorem : ∀ (snapshot previous : Snapshot) (prevP curP : Prices),
    snapshot_prices previous = some prevP →
    snapshot_prices snapshot = some curP →
    (identify_underdog prevP = none ∨ identify_underdog curP = none ∨
      identify_underdog prevP ≠ identify_underdog curP) →
    evaluate_movement snapshot previous = none := by
  intro snapshot previous prevP curP hprev hcur h
  simp only [evaluate_movement, hprev, hcur]
  cases hu : identify_underdog prevP with
  | none => rfl
  | some u =>
    cases hv : identify_underdog curP with
    | none => rfl
    | some v =>
      rw [hu, hv] at h
      rcases h with h | h | h
      · exact absurd h (by simp)
      · exact absurd h (by simp)
      · have hne : u ≠ v := by
          intro he
          exact h (by rw [he])
        simp [hne]

theorem c8_prices_flip : snapshot_prices c8_flip_curr =
    some { home := { price := 130, probability := 434782608696/1000000000000 },
           away := { price := -150, probability := 3/5 } } := by
  simp only [snapshot_prices, c8_flip_curr]
  rw [prob_130, prob_neg150]

/-- Witness for C8: the underdog flipping from away to home suppresses the
signal. -/

theorem C8_witness : evaluate_movement c8_flip_curr c1_snapshotA = none :=
  C8_theorem c8_flip_curr c1_snapshotA _ _ c1_pricesA c8_prices_flip
    (Or.inr (Or.inr (by
      rw [identify_underdog_away _ (by norm_num), identify_underdog_home _ (by norm_num)]
      simp)))

/-- C7.  A movement result is produced only with a strictly positive
movement (previous underdog price minus current underdog price) and a
strictly positive rounded probability delta; conversely, with both
dictionaries present and an unchanged underdog side, a non-positive
movement or a non-positive rounded delta yields no signal. -/

theorem C7_theorem :
    (∀ (snapshot previous : Snapshot) (m : MovementResult),
      evaluate_movement snapshot previous = some m →
      0 < m.movement_cents ∧ 0 < m.probability_delta ∧
        m.movement_cents = m.previous_price - m.current_price) ∧
    (∀ (snapshot previous : Snapshot) (prevP curP : Prices) (u : String),
      snapshot_prices previous = some prevP →
      snapshot_prices snapshot = some curP →
      identify_underdog prevP = some u →
      identify_underdog curP = some u →
      ((sideOf prevP u).price - (sideOf curP u).price ≤ 0 ∨
        quantize 4 (decSub (quantize 6 (sideOf curP u).probability)
          (quantize 6 (sideOf prevP u).probability)) ≤ 0) →
      evaluate_movement snapshot previous = none) := by
  constructor
  · intro snapshot previous m h
    rcases hp : snapshot_prices previous with _ | prevP
    · rw [evaluate_movement_none_of_prices _ _ (Or.inl hp)] at h
      exact Option.noConfusion h
    rcases hc : snapshot_prices snapshot with _ | curP
    · rw [evaluate_movement_none_of_prices _ _ (Or.inr hc)] at h
      exact Option.noConfusion h
    rcases hu : identify_underdog prevP with _ | u
    · simp only [evaluate_movement, hp, hc, hu] at h
      exact Option.noConfusion h
    rcases hv : identify_underdog curP with _ | v
    · simp only [evaluate_movement, hp, hc, hu, hv] at h
      exact Option.noConfusion h
    simp only [evaluate_movement, hp, hc, hu, hv] at h
    split at h
    · simp at h
    split at h
    · simp at h
    split at h
    · simp at h
    rename_i hne hmov hdelta
    cases h
    push_neg at hmov hdelta
    exact ⟨hmov, hdelta, rfl⟩
  · intro snapshot previous prevP curP u hprev hcur hu hv h
    simp only [evaluate_movement, hprev, hcur, hu, hv]
    simp only [ne_eq, not_true_eq_false, if_false, ite_not]
    rcases h with h | h
    · rw [if_pos h]
    · by_cases hmov : (sideOf prevP u).price - (sideOf curP u).price ≤ 0
      · rw [if_pos hmov]
      · rw [if_neg hmov, if_pos h]

/-- Witness for C7: the `+160 → +130` move yields a positive movement of
30 cents and positive delta, while the `+130 → +160` pair of the same
underdog is rejected. -/

theorem C7_witness :
    (0 < (30:ℤ) ∧ 0 < (502/10000 : ℚ) ∧ (30:ℤ) = 160 - 130) ∧
    evaluate_movement c1_snapshotB c1_snapshotA = none := by
  constructor
  · have h := C7_theorem.1 c1_amended_curr c1_amended_prev _ c1_amended_eval
    exact h
  · exact C7_theorem.2 c1_snapshotB c1_snapshotA _ _ "away" c1_pricesA c1_pricesB
      (identify_underdog_away _ (by norm_num)) (identify_underdog_away _ (by norm_num))
      (Or.inl (by simp only [sideOf_away]; norm_num))

/-- C6.  With a positive configured cooldown, every detector invocation
preserves the invariant: if it returns a recommendation at all, the
cooldown query has ruled out any same-triple recommendation whose trigger
time is within the window before the snapshot's fetch time (or later), so
the new row is more than the window away from every stored same-triple
row. -/

theorem C6_theorem (cfg : DetectorConfig) (existing : List RecRow)
    (snapshot : Snapshot) (previous_snapshot : Option Snapshot) (r : RecRow)
    (hcd : 0 < cfg.cooldown_minutes)
    (hinv : CooldownInvariant cfg.cooldown_minutes existing)
    (hdet : detect_reverse_line_move cfg existing snapshot previous_snapshot = some r) :
    CooldownInvariant cfg.cooldown_minutes (r :: existing) := by
  rcases previous_snapshot with _ | previous
  · exact Option.noConfusion hdet
  rcases hev : evaluate_movement snapshot previous with _ | movement
  · simp only [detect_reverse_line_move, hev] at hdet
    exact Option.noConfusion hdet
  simp only [detect_reverse_line_move, hev] at hdet
  split at hdet
  · exact Option.noConfusion hdet
  split at hdet
  · exact Option.noConfusion hdet
  rename_i hthr hcool
  obtain rfl := (Option.some.inj hdet).symm
  have hpass : passes_cooldown existing snapshot movement.bet_side cfg.cooldown_minutes = true := by
    rcases hb : passes_cooldown existing snapshot movement.bet_side cfg.cooldown_minutes
    · rw [hb] at hcool
      simp at hcool
    · rfl
  rw [passes_cooldown, if_neg (by omega)] at hpass
  simp only [Bool.not_eq_true'] at hpass
  have hall := List.any_eq_false.mp hpass
  rw [CooldownInvariant, List.pairwise_cons]
  refine ⟨?_, hinv⟩
  intro b hb hsame
  have hx := hall b hb
  simp only [Bool.and_eq_true, beq_iff_eq, decide_eq_true_eq, not_and, not_le] at hx
  obtain ⟨h1, h2, h3⟩ := hsame
  have hlt : b.triggered_at < snapshot.fetched_at - 60 * cfg.cooldown_minutes :=
    hx ⟨⟨h1.symm, h2.symm⟩, h3.symm⟩
  have hpos : (0:ℤ) < snapshot.fetched_at - b.triggered_at := by omega
  have habs : |snapshot.fetched_at - b.triggered_at| =
      snapshot.fetched_at - b.triggered_at := abs_of_pos hpos
  show 60 * cfg.cooldown_minutes < |snapshot.fetched_at - b.triggered_at|
  omega

theorem c6_detect_eval :
    detect_reverse_line_move c6_cfg [] c1_amended_curr (some c1_amended_prev) =
      some { event_id := 7, sportsbook_id := 3, snapshot_id := 2, triggered_at := 2000,
             direction := "reverse", movement_cents := 30, edge := 502/10000,
             confidence := "low", bet_side := "away", stake_units := none, status := "pending",
             details := { previous_price := 160, current_price := 130,
                          previous_probability := 384615/1000000,
                          current_probability := 434783/1000000,
                          probability_delta := 502/10000, threshold_cents := 20 } } := by
  simp only [detect_reverse_line_move]
  rw [c1_amended_eval]
  simp only [passes_cooldown, confidence_bucket, c6_cfg, c1_amended_curr]
  norm_num

/-- Witness for C6: a fresh detection against an empty recommendation
table establishes the invariant for the singleton table. -/

theorem C6_witness :
    CooldownInvariant 1
      [{ event_id := 7, sportsbook_id := 3, snapshot_id := 2, triggered_at := 2000,
         direction := "reverse", movement_cents := 30, edge := 502/10000,
         confidence := "low", bet_side := "away", stake_units := none, status := "pending",
         details := { previous_price := 160, current_price := 130,
                      previous_probability := 384615/1000000,
                      current_probability := 434783/1000000,
                      probability_delta := 502/10000, threshold_cents := 20 } }] :=
  C6_theorem c6_cfg [] c1_amended_curr (some c1_amended_prev) _ (by norm_num [c6_cfg])
    List.Pairwise.nil c6_detect_eval

/-- The gateway fold characterized against an arbitrary accumulator. -/

theorem fetch_foldl_eq {α : Type} (providers : List (OddsProvider α))
    (sports : List String) (init : List α) :
    providers.foldl
      (fun aggregated provider =>
        match provider.fetch sports with
        | Except.ok result => aggregated ++ result
        | Except.error _ => aggregated)
      init =
    init ++ (providers.map (provider_result sports)).flatten := by
  induction providers generalizing init with
  | nil => simp
  | cons p ps ih =>
    simp only [List.foldl_cons, List.map_cons, List.flatten_cons]
    rcases hp : p.fetch sports with e | result
    · rw [ih]
      simp [provider_result, hp]
    · rw [ih]
      simp [provider_result, hp]

/-- All-failing provider lists contribute nothing. -/

theorem flatten_of_all_fail {α : Type} (sports : List String) :
    ∀ (ps : List (OddsProvider α)),
    (∀ p ∈ ps, ∃ e, p.fetch sports = Except.error e) →
    (ps.map (provider_result sports)).flatten = [] := by
  intro ps
  induction ps with
  | nil => intro _; simp
  | cons q qs ih =>
    intro hall
    obtain ⟨e, he⟩ := hall q (List.mem_cons_self q qs)
    simp only [List.map_cons, List.flatten_cons, provider_result, he]
    rw [List.nil_append]
    exact ih (fun p hp => hall p (List.mem_cons_of_mem q hp))

/-- C9.  The gateway's fetch equals the concatenation, in provider order,
of each successfully fetched result list, a failed provider contributing
nothing; in particular, when every provider raises, the fetch still
returns the empty list instead of propagating the error. -/

theorem C9_theorem : ∀ (providers : List (OddsProvider EventPayload)) (sports : List String),
    fetch_moneyline_odds providers sports =
      (providers.map (provider_result sports)).flatten ∧
    ((∀ p ∈ providers, ∃ e, p.fetch sports = Except.error e) →
      fetch_moneyline_odds providers sports = []) := by
  intro providers sports
  have hmain : fetch_moneyline_odds providers sports =
      (providers.map (provider_result sports)).flatten := by
    rw [fetch_moneyline_odds, fetch_foldl_eq, List.nil_append]
  refine ⟨hmain, ?_⟩
  intro hall
  rw [hmain]
  exact flatten_of_all_fail sports providers hall

/-- Witness for C9: with every provider failing, the fetch still returns
the empty list. -/

theorem C9_witness : fetch_moneyline_odds c9_providers ["basketball_nba"] = [] :=
  (C9_theorem c9_providers ["basketball_nba"]).2 (by
    intro p hp
    simp only [c9_providers, List.mem_cons, List.not_mem_nil, or_false] at hp
    rcases hp with rfl | rfl
    · exact ⟨"rate limited", rfl⟩
    · exact ⟨"socket timeout", rfl⟩)

/-! ## Lemmas about the normalizer (C2, C3) -/

/-- A store-valued fold that never touches the events and snapshots tables
leaves them unchanged. -/

theorem foldl_events_snapshots_eq {b : Type} (f : Store → b → Store)
    (hf : ∀ acc x, (f acc x).events = acc.events ∧ (f acc x).snapshots = acc.snapshots) :
    ∀ (l : List b) (acc : Store),
    (l.foldl f acc).events = acc.events ∧ (l.foldl f acc).snapshots = acc.snapshots := by
  intro l
  induction l with
  | nil => intro acc; exact ⟨rfl, rfl⟩
  | cons x xs ih =>
    intro acc
    rw [List.foldl_cons]
    obtain ⟨he, hs⟩ := ih (f acc x)
    obtain ⟨he2, hs2⟩ := hf acc x
    exact ⟨he.trans he2, hs.trans hs2⟩

/-- `_ensure_sportsbooks` only writes the sportsbooks table. -/

theorem ensure_sportsbooks_shape (cfgBooks : List String) (s s2 : Store)
    (h : ensure_sportsbooks cfgBooks s = Except.ok s2) :
    s2.events = s.events ∧ s2.snapshots = s.snapshots := by
  rw [ensure_sportsbooks] at h
  split at h
  · obtain rfl := Except.ok.inj h
    exact ⟨rfl, rfl⟩
  · simp only [] at h
    split at h
    · obtain rfl := Except.ok.inj h
      refine foldl_events_snapshots_eq _ ?_ cfgBooks s
      intro acc key
      by_cases hk : ((s.sportsbooks.filter
          (fun sb => cfgBooks.contains sb.key)).map SportsbookRow.key).contains key
      · rw [if_pos hk]
        exact ⟨rfl, rfl⟩
      · rw [if_neg hk]
        exact ⟨rfl, rfl⟩
    · exact Except.noConfusion h

/-- C3 amended.  When the batch commit raises `IntegrityError`, the event
upserts and snapshot inserts of the cycle are rolled back as one unit —
the persistent events table is exactly as before the cycle and the
snapshot table holds exactly the prior rows plus whatever a concurrent
writer committed — while the sportsbook rows created by the cycle's
earlier, separate `_ensure_sportsbooks` commit survive; the error itself
propagates to the caller. -/

theorem C3_amended (cfgBooks : List String) (now : ℤ) (external : List SnapshotRow)
    (store0 store1 : Store) (data : List EventPayload) (S : Store)
    (hens : ensure_sportsbooks cfgBooks store0 = Except.ok store1)
    (hrun : persist_snapshot_batch cfgBooks now external store0 data =
      PersistOutcome.integrityError S) :
    S.events = store0.events ∧ S.snapshots = store0.snapshots ++ external ∧
      S.sportsbooks = store1.sportsbooks := by
  obtain ⟨hev, hsn⟩ := ensure_sportsbooks_shape cfgBooks store0 store1 hens
  rw [persist_snapshot_batch] at hrun
  split at hrun
  · exact PersistOutcome.noConfusion hrun
  · split at hrun
    · rename_i herr
      rw [hens] at herr
      exact Except.noConfusion herr
    · rename_i s1 hok
      rw [hens] at hok
      obtain rfl := Except.ok.inj hok
      simp only [] at hrun
      split at hrun
      · exact PersistOutcome.noConfusion hrun
      · obtain rfl := (PersistOutcome.integrityError.inj hrun).symm
        refine ⟨?_, ?_, rfl⟩
        · show store1.events = store0.events
          exact hev
        · show store1.snapshots ++ external = store0.snapshots ++ external
          rw [hsn]

/-- C3 counterexample.  A cycle whose batch commit hits a uniqueness
violation (a concurrent writer committed the same snapshot key between the
dedup check and the commit, the race in the spec's error taxonomy) raises
`IntegrityError` — yet the persistent state is NOT left unchanged by the
cycle: the sportsbook row created by `_ensure_sportsbooks` was committed
separately beforehand (tasks.py line 142) and survives the rollback, so
the cycle's writes are not one single transaction. -/

theorem C3_counterexample :
    outcomeRaised (persist_snapshot_batch ["draftkings"] 500 [c3_external_row]
      ex_store0 [ex_payload]) = true ∧
    (outcomeStore (persist_snapshot_batch ["draftkings"] 500 [c3_external_row]
      ex_store0 [ex_payload])).sportsbooks ≠ ex_store0.sportsbooks := by
  decide

/-- Witness for C3 amended at the interfered run: events roll back, the
external row remains, the ensured sportsbook survives. -/

theorem C3_witness :
    (outcomeStore (persist_snapshot_batch ["draftkings"] 500 [c3_external_row]
      ex_store0 [ex_payload])).events = ex_store0.events ∧
    (outcomeStore (persist_snapshot_batch ["draftkings"] 500 [c3_external_row]
      ex_store0 [ex_payload])).snapshots = ex_store0.snapshots ++ [c3_external_row] ∧
    (outcomeStore (persist_snapshot_batch ["draftkings"] 500 [c3_external_row]
      ex_store0 [ex_payload])).sportsbooks = c3_store1.sportsbooks :=
  C3_amended ["draftkings"] 500 [c3_external_row] ex_store0 c3_store1 [ex_payload]
    (outcomeStore (persist_snapshot_batch ["draftkings"] 500 [c3_external_row]
      ex_store0 [ex_payload]))
    (by decide) (by decide)

/-- C2 counterexample.  Two violations of the claim.  First, a batch whose
bookmaker `last_update` fails to parse: the row is stored under the
insertion-time "now" fallback, so the identical batch re-inserts on the
second run (`inserted` is 1 again, not 0).  Second, a first run that
already skips a duplicate: the re-run's `skipped_duplicate_count` is 1,
which differs from the first run's `inserted_count` of 0. -/

theorem C2_counterexample :
    (outcomeInserted (persist_snapshot_batch ["draftkings"] 500 [] ex_store0
        [ex_payload_badtime]) = some 1 ∧
      outcomeInserted (persist_snapshot_batch ["draftkings"] 600 []
        (outcomeStore (persist_snapshot_batch ["draftkings"] 500 [] ex_store0
          [ex_payload_badtime])) [ex_payload_badtime]) ≠ some 0) ∧
    (outcomeInserted (persist_snapshot_batch ["draftkings"] 500 [] c2_store_pre
        [ex_payload]) = some 0 ∧
      outcomeSkipped (persist_snapshot_batch ["draftkings"] 500 [] c2_store_pre
        [ex_payload]) = some 1 ∧
      outcomeSkipped (persist_snapshot_batch ["draftkings"] 600 []
        (outcomeStore (persist_snapshot_batch ["draftkings"] 500 [] c2_store_pre
          [ex_payload])) [ex_payload]) ≠
        outcomeInserted (persist_snapshot_batch ["draftkings"] 500 [] c2_store_pre
          [ex_payload])) := by
  decide

theorem totalReach_cons (cfgBooks : List String) (lookup : List (String × SportsbookRow))
    (p : EventPayload) (ps : List EventPayload) :
    totalReach cfgBooks lookup (p :: ps) =
      reachCount cfgBooks lookup p + totalReach cfgBooks lookup ps := by
  simp [totalReach]

/-- The duplicate check is monotone under appending rows. -/

theorem snapshot_exists_append (l new : List SnapshotRow) (e b : ℤ) (pr : String)
    (t : Option ℤ) (h : snapshot_exists l e b pr t = true) :
    snapshot_exists (l ++ new) e b pr t = true := by
  rcases t with _ | t
  · exact absurd h (by simp [snapshot_exists])
  · rw [snapshot_exists] at h ⊢
    rw [List.any_append, h]
    rfl

/-- The row just appended satisfies its own duplicate check. -/

theorem snapshot_exists_append_self (l : List SnapshotRow) (r : SnapshotRow) :
    snapshot_exists (l ++ [r]) r.event_id r.sportsbook_id r.provider (some r.fetched_at) = true := by
  rw [snapshot_exists, List.any_append]
  have h2 : ([r].any (fun x =>
      x.event_id == r.event_id && x.sportsbook_id == r.sportsbook_id &&
      x.provider == r.provider && x.fetched_at == r.fetched_at)) = true := by
    simp
  rw [h2, Bool.or_true]

/-- Decompose the event-key predicate. -/

theorem eventPred_iff (r : EventRow) (pr : String) (pid : Option String) :
    (r.provider == pr && r.provider_event_id == pid) = true ↔
      (r.provider = pr ∧ r.provider_event_id = pid) := by
  simp

/-- Head step of the event-key lookup: matching head. -/

theorem findEventId_cons_of_pos (r : EventRow) (l : List EventRow) (pr : String)
    (pid : Option String) (h : (r.provider == pr && r.provider_event_id == pid) = true) :
    findEventId (r :: l) pr pid = some r.id := by
  simp only [findEventId, List.find?, h]
  rfl

/-- Head step of the event-key lookup: non-matching head. -/

theorem findEventId_cons_of_neg (r : EventRow) (l : List EventRow) (pr : String)
    (pid : Option String) (h : ¬ (r.provider == pr && r.provider_event_id == pid) = true) :
    findEventId (r :: l) pr pid = findEventId l pr pid := by
  simp only [findEventId, List.find?, Bool.eq_false_iff.mpr h]

/-- Updating the rows under one event key does not change the id stored
under any other key. -/

theorem findEventId_map_update_ne (provider : String) (pid0 : Option String)
    (e2 : EventRow) (he2p : e2.provider = provider) (he2i : e2.provider_event_id = pid0)
    (pr : String) (pid : Option String) (hne : ¬(pr = provider ∧ pid = pid0)) :
    ∀ l : List EventRow,
    findEventId (l.map (fun r =>
      if r.provider == provider && r.provider_event_id == pid0 then e2 else r)) pr pid =
      findEventId l pr pid := by
  intro l
  induction l with
  | nil => rfl
  | cons r rs ih =>
    simp only [List.map_cons]
    by_cases hr : r.provider = provider ∧ r.provider_event_id = pid0
    · have hrb : (r.provider == provider && r.provider_event_id == pid0) = true :=
        (eventPred_iff r provider pid0).mpr hr
      have hPe2 : ¬ (e2.provider == pr && e2.provider_event_id == pid) = true := by
        rw [eventPred_iff, he2p, he2i]
        intro hc
        exact hne ⟨hc.1.symm, hc.2.symm⟩
      have hPr : ¬ (r.provider == pr && r.provider_event_id == pid) = true := by
        rw [eventPred_iff, hr.1, hr.2]
        intro hc
        exact hne ⟨hc.1.symm, hc.2.symm⟩
      rw [if_pos hrb, findEventId_cons_of_neg e2 _ pr pid hPe2,
        findEventId_cons_of_neg r rs pr pid hPr]
      exact ih
    · have hrb : ¬ (r.provider == provider && r.provider_event_id == pid0) = true := by
        rw [eventPred_iff]
        exact hr
      rw [if_neg hrb]
      by_cases hP : (r.provider == pr && r.provider_event_id == pid) = true
      · rw [findEventId_cons_of_pos r _ pr pid hP, findEventId_cons_of_pos r rs pr pid hP]
      · rw [findEventId_cons_of_neg r _ pr pid hP, findEventId_cons_of_neg r rs pr pid hP]
        exact ih

/-- Updating the rows under an event key keeps the stored id, when the id
written equals the id found. -/

theorem findEventId_map_update_eq (provider : String) (pid0 : Option String)
    (e2 : EventRow) (he2p : e2.provider = provider) (he2i : e2.provider_event_id = pid0) :
    ∀ l : List EventRow,
    findEventId l provider pid0 = some e2.id →
    findEventId (l.map (fun r =>
      if r.provider == provider && r.provider_event_id == pid0 then e2 else r))
      provider pid0 = some e2.id := by
  intro l
  induction l with
  | nil =>
    intro hid
    exact absurd hid (by simp [findEventId])
  | cons r rs ih =>
    intro hid
    have hPe2 : (e2.provider == provider && e2.provider_event_id == pid0) = true :=
      (eventPred_iff e2 provider pid0).mpr ⟨he2p, he2i⟩
    simp only [List.map_cons]
    by_cases hr : (r.provider == provider && r.provider_event_id == pid0) = true
    · rw [if_pos hr, findEventId_cons_of_pos e2 _ provider pid0 hPe2]
    · rw [if_neg hr, findEventId_cons_of_neg r _ provider pid0 hr]
      rw [findEventId_cons_of_neg r rs provider pid0 hr] at hid
      exact ih hid

/-- Updating the rows under one event key preserves the key column pair of
every row. -/

theorem eventKey_map_update (provider : String) (pid0 : Option String)
    (e2 : EventRow) (he2p : e2.provider = provider) (he2i : e2.provider_event_id = pid0)
    (l : List EventRow) :
    (l.map (fun r =>
      if r.provider == provider && r.provider_event_id == pid0 then e2 else r)).map eventKey =
      l.map eventKey := by
  rw [List.map_map]
  apply List.map_congr_left
  intro r _
  show eventKey (if r.provider == provider && r.provider_event_id == pid0 then e2 else r) =
    eventKey r
  by_cases hr : (r.provider == provider && r.provider_event_id == pid0) = true
  · rw [if_pos hr]
    obtain ⟨hrp, hri⟩ := (eventPred_iff r provider pid0).mp hr
    rw [eventKey, eventKey, he2p, he2i, hrp, hri]
  · rw [if_neg hr]

/-- A stored event id is still stored after appending rows. -/

theorem findEventId_append_some (l new : List EventRow) (pr : String) (pid : Option String)
    (idv : ℤ) (h : findEventId l pr pid = some idv) :
    findEventId (l ++ new) pr pid = some idv := by
  induction l with
  | nil => exact absurd h (by simp [findEventId])
  | cons r rs ih =>
    by_cases hP : (r.provider == pr && r.provider_event_id == pid) = true
    · rw [List.cons_append, findEventId_cons_of_pos r _ pr pid hP]
      rw [findEventId_cons_of_pos r rs pr pid hP] at h
      exact h
    · rw [List.cons_append, findEventId_cons_of_neg r _ pr pid hP]
      rw [findEventId_cons_of_neg r rs pr pid hP] at h
      exact ih h

/-- Appending a fresh event row stores its id under its key. -/

theorem findEventId_append_new (l : List EventRow) (e2 : EventRow)
    (h : findEventId l e2.provider e2.provider_event_id = none) :
    findEventId (l ++ [e2]) e2.provider e2.provider_event_id = some e2.id := by
  induction l with
  | nil =>
    rw [List.nil_append,
      findEventId_cons_of_pos e2 [] e2.provider e2.provider_event_id (by simp)]
  | cons r rs ih =>
    by_cases hP : (r.provider == e2.provider && r.provider_event_id == e2.provider_event_id) = true
    · rw [findEventId_cons_of_pos r rs e2.provider e2.provider_event_id hP] at h
      exact absurd h (by simp)
    · rw [List.cons_append, findEventId_cons_of_neg r _ e2.provider e2.provider_event_id hP]
      rw [findEventId_cons_of_neg r rs e2.provider e2.provider_event_id hP] at h
      exact ih h

/-- Merging no concurrent rows is the identity. -/

theorem add_external_nil (s : Store) : add_external [] s = s := by
  rw [add_external, List.append_nil]

/-- The sportsbook-creation fold only appends rows. -/

theorem ensure_fold_mono (existingKeys : List String) :
    ∀ (keys : List String) (acc : Store) (x : SportsbookRow), x ∈ acc.sportsbooks →
      x ∈ (keys.foldl (fun acc key =>
        if existingKeys.contains key then acc
        else { acc with
               sportsbooks := acc.sportsbooks ++
                 [{ id := acc.next_sportsbook_id, key := key, name := key.capitalize }],
               next_sportsbook_id := acc.next_sportsbook_id + 1 }) acc).sportsbooks := by
  intro keys
  induction keys with
  | nil =>
    intro acc x hx
    exact hx
  | cons k ks ih =>
    intro acc x hx
    rw [List.foldl_cons]
    apply ih
    by_cases hk : existingKeys.contains k = true
    · rw [if_pos hk]
      exact hx
    · rw [if_neg hk]
      exact List.mem_append_left _ hx

/-- After the sportsbook-creation fold, every folded key has a row. -/

theorem ensure_fold_cover (existingKeys : List String) (s : Store)
    (hex : ∀ k, existingKeys.contains k = true → ∃ sb ∈ s.sportsbooks, sb.key = k) :
    ∀ (keys : List String) (acc : Store), (∀ x ∈ s.sportsbooks, x ∈ acc.sportsbooks) →
      ∀ k ∈ keys, ∃ sb ∈ (keys.foldl (fun acc key =>
        if existingKeys.contains key then acc
        else { acc with
               sportsbooks := acc.sportsbooks ++
                 [{ id := acc.next_sportsbook_id, key := key, name := key.capitalize }],
               next_sportsbook_id := acc.next_sportsbook_id + 1 }) acc).sportsbooks,
        sb.key = k := by
  intro keys
  induction keys with
  | nil =>
    intro acc _ k hk
    exact absurd hk (List.not_mem_nil k)
  | cons k0 ks ih =>
    intro acc hacc k hk
    rw [List.foldl_cons]
    rcases List.mem_cons.mp hk with rfl | hk
    · by_cases hc : existingKeys.contains k = true
      · obtain ⟨sb, hsb, hkey⟩ := hex k hc
        refine ⟨sb, ?_, hkey⟩
        apply ensure_fold_mono
        by_cases hc2 : existingKeys.contains k = true
        · rw [if_pos hc2]
          exact hacc sb hsb
        · exact absurd hc hc2
      · refine ⟨{ id := acc.next_sportsbook_id, key := k, name := k.capitalize }, ?_, rfl⟩
        apply ensure_fold_mono
        rw [if_neg hc]
        exact List.mem_append_right _ (List.mem_singleton.mpr rfl)
    · apply ih
      · intro x hx
        by_cases hc : existingKeys.contains k0 = true
        · rw [if_pos hc]
          exact hacc x hx
        · rw [if_neg hc]
          exact List.mem_append_left _ (hacc x hx)
      · exact hk

/-- When every folded key is already present, the fold is the identity. -/

theorem ensure_fold_id (existingKeys : List String) :
    ∀ (keys : List String) (acc : Store), (∀ k ∈ keys, existingKeys.contains k = true) →
      keys.foldl (fun acc key =>
        if existingKeys.contains key then acc
        else { acc with
               sportsbooks := acc.sportsbooks ++
                 [{ id := acc.next_sportsbook_id, key := key, name := key.capitalize }],
               next_sportsbook_id := acc.next_sportsbook_id + 1 }) acc = acc := by
  intro keys
  induction keys with
  | nil =>
    intro acc _
    rfl
  | cons k0 ks ih =>
    intro acc hall
    rw [List.foldl_cons, if_pos (hall k0 (List.mem_cons_self k0 ks))]
    exact ih acc (fun k hk => hall k (List.mem_cons_of_mem _ hk))

/-- A successful `_ensure_sportsbooks` leaves a row for every configured
key. -/

theorem ensure_sportsbooks_keys (cfg : List String) (s s1 : Store)
    (h : ensure_sportsbooks cfg s = Except.ok s1) :
    ∀ k ∈ cfg, ∃ sb ∈ s1.sportsbooks, sb.key = k := by
  intro k hk
  rw [ensure_sportsbooks] at h
  by_cases hemp : cfg.isEmpty = true
  · exact absurd hk (by simp [List.isEmpty_iff.mp hemp])
  · rw [if_neg hemp] at h
    simp only [] at h
    split at h
    · have hs1 : s1 = cfg.foldl (fun acc key =>
        if ((s.sportsbooks.filter (fun sb => cfg.contains sb.key)).map
            SportsbookRow.key).contains key then acc
        else { acc with
               sportsbooks := acc.sportsbooks ++
                 [{ id := acc.next_sportsbook_id, key := key, name := key.capitalize }],
               next_sportsbook_id := acc.next_sportsbook_id + 1 }) s :=
        (Except.ok.inj h).symm
      rw [hs1]
      apply ensure_fold_cover
      · intro k2 hk2
        have hmem : k2 ∈ (s.sportsbooks.filter (fun sb => cfg.contains sb.key)).map
            SportsbookRow.key := List.elem_iff.mp hk2
        obtain ⟨sb, hsb, hkey⟩ := List.mem_map.mp hmem
        exact ⟨sb, List.mem_of_mem_filter hsb, hkey⟩
      · intro x hx
        exact hx
      · exact hk
    · exact absurd h (by simp)

/-- When every configured key already has a row and the store satisfies
the constraints, `_ensure_sportsbooks` returns the store unchanged. -/

theorem ensure_sportsbooks_id (cfg : List String) (s : Store)
    (hk : ∀ k ∈ cfg, ∃ sb ∈ s.sportsbooks, sb.key = k) (hok : storeOk s) :
    ensure_sportsbooks cfg s = Except.ok s := by
  rw [ensure_sportsbooks]
  by_cases hemp : cfg.isEmpty = true
  · rw [if_pos hemp]
  · rw [if_neg hemp]
    simp only []
    have hcontains : ∀ k ∈ cfg,
        ((s.sportsbooks.filter (fun sb => cfg.contains sb.key)).map
          SportsbookRow.key).contains k = true := by
      intro k hkc
      obtain ⟨sb, hsb, hkey⟩ := hk k hkc
      apply List.elem_iff.mpr
      apply List.mem_map.mpr
      refine ⟨sb, ?_, hkey⟩
      apply List.mem_filter.mpr
      refine ⟨hsb, ?_⟩
      rw [hkey]
      exact List.elem_iff.mpr hkc
    rw [ensure_fold_id _ cfg s hcontains, if_pos hok]

/-- A stored event id comes from a concrete row found by the query. -/

theorem findEventId_some_elim (l : List EventRow) (pr : String) (pid : Option String)
    (eid : ℤ) (h : findEventId l pr pid = some eid) :
    ∃ e, l.find? (fun r => r.provider == pr && r.provider_event_id == pid) = some e ∧
      e.id = eid := by
  rw [findEventId] at h
  obtain ⟨e, he, hid⟩ := Option.map_eq_some'.mp h
  exact ⟨e, he, hid⟩

/-- `_upsert_event` leaves snapshots and sportsbooks alone, stores the
payload's key under the returned row's id, and never loses a stored event
id. -/

theorem upsert_event_summary (provider : String) (sk : Option String)
    (payload : RawEventData) (s : Store) :
    (upsert_event provider sk payload s).2.snapshots = s.snapshots ∧
    (upsert_event provider sk payload s).2.sportsbooks = s.sportsbooks ∧
    findEventId (upsert_event provider sk payload s).2.events provider payload.id =
      some (upsert_event provider sk payload s).1.id ∧
    (∀ pr0 pid0 eid, findEventId s.events pr0 pid0 = some eid →
      findEventId (upsert_event provider sk payload s).2.events pr0 pid0 = some eid) := by
  cases hfind : s.events.find?
      (fun e => e.provider == provider && e.provider_event_id == payload.id) with
  | some e =>
    have hfid : findEventId s.events provider payload.id = some e.id := by
      rw [findEventId, hfind]
      rfl
    simp only [upsert_event, hfind]
    refine ⟨trivial, trivial, ?_, ?_⟩
    · exact findEventId_map_update_eq provider payload.id
        (eventRowFor provider sk payload e.id) rfl rfl s.events hfid
    · intro pr0 pid0 eid hid
      by_cases hcase : pr0 = provider ∧ pid0 = payload.id
      · obtain ⟨rfl, rfl⟩ := hcase
        have heid : eid = e.id := by
          rw [hid] at hfid
          exact Option.some.inj hfid
        subst heid
        exact findEventId_map_update_eq pr0 payload.id
          (eventRowFor pr0 sk payload e.id) rfl rfl s.events hfid
      · rw [findEventId_map_update_ne provider payload.id
          (eventRowFor provider sk payload e.id) rfl rfl pr0 pid0 hcase s.events]
        exact hid
  | none =>
    have hnone : findEventId s.events provider payload.id = none := by
      rw [findEventId, hfind]
      rfl
    simp only [upsert_event, hfind]
    refine ⟨trivial, trivial, ?_, ?_⟩
    · exact findEventId_append_new s.events
        (eventRowFor provider sk payload s.next_event_id) hnone
    · intro pr0 pid0 eid hid
      exact findEventId_append_some s.events _ pr0 pid0 eid hid

/-- On a key already stored, `_upsert_event` takes the update branch:
the returned row reuses the found id and the events table is rewritten in
place. -/

theorem upsert_event_existing (provider : String) (sk : Option String)
    (payload : RawEventData) (s : Store) (e : EventRow)
    (hfind : s.events.find?
      (fun r => r.provider == provider && r.provider_event_id == payload.id) = some e) :
    upsert_event provider sk payload s =
      (eventRowFor provider sk payload e.id,
       { s with events := s.events.map (fun r =>
           if r.provider == provider && r.provider_event_id == payload.id
           then eventRowFor provider sk payload e.id else r) }) := by
  simp only [upsert_event, hfind]

/-- A bookmaker entry that does not reach the duplicate check leaves the
fold state unchanged. -/

theorem process_bookmaker_not_reach (cfgBooks : List String)
    (lookup : List (String × SportsbookRow)) (provider : String) (now : ℤ)
    (event : EventRow) (st : Store × ℤ × ℤ) (bk : RawBookmaker)
    (h : reaches cfgBooks lookup bk = false) :
    process_bookmaker cfgBooks lookup provider now event st bk = st := by
  by_cases hA : book_allowed cfgBooks bk = true
  · cases hL : lookup_get lookup bk.key with
    | none => simp [process_bookmaker, hA, hL]
    | some sb =>
      cases hM : extract_market bk.markets "h2h" with
      | none => simp [process_bookmaker, hA, hL, hM]
      | some m => simp [reaches, hA, hL, hM] at h
  · have hA2 : book_allowed cfgBooks bk = false := by
      cases hb : book_allowed cfgBooks bk
      · rfl
      · exact absurd hb hA
    simp [process_bookmaker, hA2]

/-- The skip branch: the duplicate check fires and only the skipped
counter moves. -/

theorem process_bookmaker_dup (cfgBooks : List String)
    (lookup : List (String × SportsbookRow)) (provider : String) (now : ℤ)
    (event : EventRow) (s : Store) (i k : ℤ) (bk : RawBookmaker) (sb : SportsbookRow)
    (m : RawMarket)
    (hA : book_allowed cfgBooks bk = true)
    (hL : lookup_get lookup bk.key = some sb)
    (hM : extract_market bk.markets "h2h" = some m)
    (hEx : snapshot_exists s.snapshots event.id sb.id provider
      (parse_datetime bk.last_update) = true) :
    process_bookmaker cfgBooks lookup provider now event (s, i, k) bk = (s, i, k + 1) := by
  simp [process_bookmaker, hA, hL, hM, hEx]

/-- The insert branch: the duplicate check misses and the new row is
appended to the session. -/

theorem process_bookmaker_ins (cfgBooks : List String)
    (lookup : List (String × SportsbookRow)) (provider : String) (now : ℤ)
    (event : EventRow) (s : Store) (i k : ℤ) (bk : RawBookmaker) (sb : SportsbookRow)
    (m : RawMarket)
    (hA : book_allowed cfgBooks bk = true)
    (hL : lookup_get lookup bk.key = some sb)
    (hM : extract_market bk.markets "h2h" = some m)
    (hEx : snapshot_exists s.snapshots event.id sb.id provider
      (parse_datetime bk.last_update) = false) :
    process_bookmaker cfgBooks lookup provider now event (s, i, k) bk =
      ({ s with snapshots := s.snapshots ++
          [snapshotRowFor event sb provider now (parse_datetime bk.last_update) m
            (outcomes_get (map_outcomes m.outcomes) event.home_team)
            (outcomes_get (map_outcomes m.outcomes) event.away_team)
            (draw_price_of (map_outcomes m.outcomes))] }, i + 1, k) := by
  simp [process_bookmaker, hA, hL, hM, hEx]

/-- One inner-loop step: events and sportsbooks are untouched, snapshots
only grow, the two counters together advance exactly on entries that reach
the duplicate check, and a processed entry with a parseable fetch time has
its snapshot key stored afterwards. -/

theorem process_bookmaker_step (cfgBooks : List String)
    (lookup : List (String × SportsbookRow)) (provider : String) (now : ℤ)
    (event : EventRow) (s : Store) (i k : ℤ) (bk : RawBookmaker)
    (r : Store × ℤ × ℤ)
    (h : process_bookmaker cfgBooks lookup provider now event (s, i, k) bk = r) :
    r.1.events = s.events ∧ r.1.sportsbooks = s.sportsbooks ∧
    (∃ new, r.1.snapshots = s.snapshots ++ new) ∧
    r.2.1 + r.2.2 = i + k + (if reaches cfgBooks lookup bk = true then 1 else 0) ∧
    (∀ sb t, reaches cfgBooks lookup bk = true → lookup_get lookup bk.key = some sb →
      parse_datetime bk.last_update = some t →
      snapshot_exists r.1.snapshots event.id sb.id provider (some t) = true) := by
  subst h
  cases hre : reaches cfgBooks lookup bk with
  | false =>
    rw [process_bookmaker_not_reach cfgBooks lookup provider now event (s, i, k) bk hre]
    refine ⟨rfl, rfl, ⟨[], (List.append_nil _).symm⟩, ?_, ?_⟩
    · show i + k = i + k + if false = true then 1 else 0
      rw [if_neg (by simp)]
      ring
    · intro sb t hre2 _ _
      exact absurd hre2 (by simp)
  | true =>
    have hre2 := hre
    rw [reaches, Bool.and_eq_true, Bool.and_eq_true] at hre2
    obtain ⟨⟨hA, hLs⟩, hMs⟩ := hre2
    obtain ⟨sb0, hL⟩ := Option.isSome_iff_exists.mp hLs
    obtain ⟨m, hM⟩ := Option.isSome_iff_exists.mp hMs
    cases hEx : snapshot_exists s.snapshots event.id sb0.id provider
        (parse_datetime bk.last_update) with
    | true =>
      rw [process_bookmaker_dup cfgBooks lookup provider now event s i k bk sb0 m hA hL hM hEx]
      refine ⟨rfl, rfl, ⟨[], (List.append_nil _).symm⟩, ?_, ?_⟩
      · show i + (k + 1) = i + k + if true = true then 1 else 0
        rw [if_pos rfl]
        ring
      · intro sb t _ hL2 hT2
        rw [hL] at hL2
        obtain rfl := Option.some.inj hL2
        rw [hT2] at hEx
        exact hEx
    | false =>
      rw [process_bookmaker_ins cfgBooks lookup provider now event s i k bk sb0 m hA hL hM hEx]
      refine ⟨rfl, rfl, ⟨_, rfl⟩, ?_, ?_⟩
      · show i + 1 + k = i + k + if true = true then 1 else 0
        rw [if_pos rfl]
        ring
      · intro sb t _ hL2 hT2
        rw [hL] at hL2
        obtain rfl := Option.some.inj hL2
        rw [hT2]
        have hself := snapshot_exists_append_self s.snapshots
          (snapshotRowFor event sb0 provider now (parse_datetime bk.last_update) m
            (outcomes_get (map_outcomes m.outcomes) event.home_team)
            (outcomes_get (map_outcomes m.outcomes) event.away_team)
            (draw_price_of (map_outcomes m.outcomes)))
        rw [hT2] at hself
        simpa [snapshotRowFor, hT2] using hself

/-- The inner bookmaker loop: events and sportsbooks pass through, the
snapshot table only grows, the counters together advance by the number of
entries reaching the duplicate check, and every processed entry with a
parseable fetch time ends with its snapshot key stored. -/

theorem bookmaker_fold_run (cfgBooks : List String)
    (lookup : List (String × SportsbookRow)) (provider : String) (now : ℤ)
    (event : EventRow) :
    ∀ (bks : List RawBookmaker) (s : Store) (i k : ℤ) (r : Store × ℤ × ℤ),
    bks.foldl (process_bookmaker cfgBooks lookup provider now event) (s, i, k) = r →
    r.1.events = s.events ∧ r.1.sportsbooks = s.sportsbooks ∧
    (∃ new, r.1.snapshots = s.snapshots ++ new) ∧
    r.2.1 + r.2.2 = i + k + (bks.countP (reaches cfgBooks lookup) : ℤ) ∧
    (∀ bk ∈ bks, ∀ sb t, reaches cfgBooks lookup bk = true →
      lookup_get lookup bk.key = some sb → parse_datetime bk.last_update = some t →
      snapshot_exists r.1.snapshots event.id sb.id provider (some t) = true) := by
  intro bks
  induction bks with
  | nil =>
    intro s i k r h
    rw [List.foldl_nil] at h
    subst h
    refine ⟨rfl, rfl, ⟨[], (List.append_nil _).symm⟩, by simp, ?_⟩
    intro bk hbk
    exact absurd hbk (List.not_mem_nil bk)
  | cons bk bks ih =>
    intro s i k r h
    rcases hP : process_bookmaker cfgBooks lookup provider now event (s, i, k) bk
      with ⟨s1, i1, k1⟩
    rw [List.foldl_cons, hP] at h
    rcases ih s1 i1 k1 r h with ⟨he, hsb, ⟨new2, hsn⟩, hcnt, hest⟩
    rcases process_bookmaker_step cfgBooks lookup provider now event s i k bk _ hP
      with ⟨he1, hsb1, ⟨new1, hsn1⟩, hcnt1, hest1⟩
    refine ⟨he.trans he1, hsb.trans hsb1, ⟨new1 ++ new2, ?_⟩, ?_, ?_⟩
    · rw [hsn, hsn1, List.append_assoc]
    · rw [hcnt]
      have hik : (i1 + k1 : ℤ) = i + k + (if reaches cfgBooks lookup bk = true
          then 1 else 0) := hcnt1
      rw [List.countP_cons]
      by_cases hb : reaches cfgBooks lookup bk = true
      · rw [if_pos hb] at hik
        rw [if_pos hb]
        push_cast
        omega
      · rw [if_neg hb] at hik
        rw [if_neg hb]
        push_cast
        omega
    · intro bk2 hbk2 sb t hre hL hT
      rcases List.mem_cons.mp hbk2 with rfl | hbk2
      · have h1 := hest1 sb t hre hL hT
        rw [hsn]
        exact snapshot_exists_append _ _ _ _ _ _ h1
      · exact hest bk2 hbk2 sb t hre hL hT

/-- The inner bookmaker loop on a store that already holds every reached
snapshot key, with all fetch times parseable: the store is unchanged and
every reached entry is counted as a skipped duplicate. -/

theorem bookmaker_fold_steady (cfgBooks : List String)
    (lookup : List (String × SportsbookRow)) (provider : String) (now : ℤ)
    (event : EventRow) :
    ∀ (bks : List RawBookmaker) (s : Store) (i k : ℤ),
    (∀ bk ∈ bks, (parse_datetime bk.last_update).isSome = true) →
    (∀ bk ∈ bks, ∀ sb t, reaches cfgBooks lookup bk = true →
      lookup_get lookup bk.key = some sb → parse_datetime bk.last_update = some t →
      snapshot_exists s.snapshots event.id sb.id provider (some t) = true) →
    bks.foldl (process_bookmaker cfgBooks lookup provider now event) (s, i, k) =
      (s, i, k + (bks.countP (reaches cfgBooks lookup) : ℤ)) := by
  intro bks
  induction bks with
  | nil =>
    intro s i k _ _
    simp
  | cons bk bks ih =>
    intro s i k hparse hex
    rw [List.foldl_cons]
    by_cases hb : reaches cfgBooks lookup bk = true
    · have hre2 := hb
      rw [reaches, Bool.and_eq_true, Bool.and_eq_true] at hre2
      obtain ⟨⟨hA, hLs⟩, hMs⟩ := hre2
      obtain ⟨sb0, hL⟩ := Option.isSome_iff_exists.mp hLs
      obtain ⟨m, hM⟩ := Option.isSome_iff_exists.mp hMs
      obtain ⟨t, hT⟩ := Option.isSome_iff_exists.mp (hparse bk (List.mem_cons_self bk bks))
      have hEx : snapshot_exists s.snapshots event.id sb0.id provider
          (parse_datetime bk.last_update) = true := by
        rw [hT]
        exact hex bk (List.mem_cons_self bk bks) sb0 t hb hL hT
      rw [process_bookmaker_dup cfgBooks lookup provider now event s i k bk sb0 m hA hL hM hEx]
      rw [ih s i (k + 1) (fun b hb2 => hparse b (List.mem_cons_of_mem _ hb2))
          (fun b hb2 => hex b (List.mem_cons_of_mem _ hb2))]
      refine congrArg (fun z => ((s, i, z) : Store × ℤ × ℤ)) ?_
      rw [List.countP_cons, if_pos hb]
      push_cast
      ring
    · rw [process_bookmaker_not_reach cfgBooks lookup provider now event (s, i, k) bk
        (Bool.eq_false_iff.mpr hb)]
      rw [ih s i k (fun b hb2 => hparse b (List.mem_cons_of_mem _ hb2))
          (fun b hb2 => hex b (List.mem_cons_of_mem _ hb2))]
      refine congrArg (fun z => ((s, i, z) : Store × ℤ × ℤ)) ?_
      rw [List.countP_cons, if_neg hb]
      push_cast
      ring

/-- A persisted payload stays persisted when event ids are preserved and
the snapshot table only grows. -/

theorem payloadPersisted_mono (cfgBooks : List String)
    (lookup : List (String × SportsbookRow)) (S S2 : Store) (p : EventPayload)
    (hpp : payloadPersisted cfgBooks lookup S p)
    (hfind : ∀ pr pid eid, findEventId S.events pr pid = some eid →
      findEventId S2.events pr pid = some eid)
    (hsnap : ∃ new, S2.snapshots = S.snapshots ++ new) :
    payloadPersisted cfgBooks lookup S2 p := by
  obtain ⟨eid, heid, hbs⟩ := hpp
  obtain ⟨new, hnew⟩ := hsnap
  refine ⟨eid, hfind _ _ _ heid, ?_⟩
  intro bk hbk sb t hre hL hT
  rw [hnew]
  exact snapshot_exists_append _ _ _ _ _ _ (hbs bk hbk sb t hre hL hT)

/-- One outer-loop step of the batch: sportsbooks pass through, snapshots
only grow, stored event ids survive, the payload ends persisted, and the
counters advance by the payload's duplicate-check reach. -/

theorem process_payload_run (cfgBooks : List String)
    (lookup : List (String × SportsbookRow)) (now : ℤ) (s : Store) (i k : ℤ)
    (p : EventPayload) (r : Store × ℤ × ℤ)
    (h : process_payload cfgBooks lookup now (s, i, k) p = r) :
    r.1.sportsbooks = s.sportsbooks ∧
    (∃ new, r.1.snapshots = s.snapshots ++ new) ∧
    (∀ pr pid eid, findEventId s.events pr pid = some eid →
      findEventId r.1.events pr pid = some eid) ∧
    payloadPersisted cfgBooks lookup r.1 p ∧
    r.2.1 + r.2.2 = i + k + (reachCount cfgBooks lookup p : ℤ) := by
  simp only [process_payload] at h
  obtain ⟨hsnap_up, hsb_up, hfid_up, hmono_up⟩ :=
    upsert_event_summary (p.provider.getD "unknown") p.sport_key p.event s
  obtain ⟨hev, hsb, hsnapex, hcnt, hest⟩ :=
    bookmaker_fold_run cfgBooks lookup (p.provider.getD "unknown") now
      (upsert_event (p.provider.getD "unknown") p.sport_key p.event s).1
      p.event.bookmakers
      (upsert_event (p.provider.getD "unknown") p.sport_key p.event s).2 i k r h
  refine ⟨hsb.trans hsb_up, ?_, ?_, ?_, hcnt⟩
  · obtain ⟨new, hnew⟩ := hsnapex
    exact ⟨new, by rw [hnew, hsnap_up]⟩
  · intro pr pid eid hid
    rw [hev]
    exact hmono_up pr pid eid hid
  · refine ⟨(upsert_event (p.provider.getD "unknown") p.sport_key p.event s).1.id, ?_, ?_⟩
    · rw [hev]
      exact hfid_up
    · intro bk hbk sb t hre hL hT
      exact hest bk hbk sb t hre hL hT

/-- One outer-loop step on a store whose snapshots, sportsbooks and event
ids agree with the committed first-run store: nothing is written, the
payload's reach is counted as skipped, and the agreement is preserved. -/

theorem process_payload_steady (cfgBooks : List String)
    (lookup : List (String × SportsbookRow)) (now : ℤ) (S1 : Store)
    (s : Store) (i k : ℤ) (p : EventPayload) (r : Store × ℤ × ℤ)
    (hsnap : s.snapshots = S1.snapshots)
    (hsb : s.sportsbooks = S1.sportsbooks)
    (hfind : ∀ pr pid, findEventId s.events pr pid = findEventId S1.events pr pid)
    (hkeys : s.events.map eventKey = S1.events.map eventKey)
    (hpp : payloadPersisted cfgBooks lookup S1 p)
    (hparse : ∀ bk ∈ p.event.bookmakers, (parse_datetime bk.last_update).isSome = true)
    (h : process_payload cfgBooks lookup now (s, i, k) p = r) :
    r.1.snapshots = S1.snapshots ∧ r.1.sportsbooks = S1.sportsbooks ∧
    (∀ pr pid, findEventId r.1.events pr pid = findEventId S1.events pr pid) ∧
    r.1.events.map eventKey = S1.events.map eventKey ∧
    r.2.1 = i ∧ r.2.2 = k + (reachCount cfgBooks lookup p : ℤ) := by
  obtain ⟨eid, heid, hbs⟩ := hpp
  have hfid_s : findEventId s.events (p.provider.getD "unknown") p.event.id = some eid := by
    rw [hfind]
    exact heid
  obtain ⟨e, hfind_e, hide⟩ := findEventId_some_elim _ _ _ _ hfid_s
  simp only [process_payload] at h
  rw [upsert_event_existing (p.provider.getD "unknown") p.sport_key p.event s e hfind_e] at h
  have hfid_e2 : findEventId s.events (p.provider.getD "unknown") p.event.id =
      some (eventRowFor (p.provider.getD "unknown") p.sport_key p.event e.id).id := by
    rw [hfid_s]
    show some eid = some e.id
    rw [hide]
  have hex : ∀ bk ∈ p.event.bookmakers, ∀ sb t,
      reaches cfgBooks lookup bk = true → lookup_get lookup bk.key = some sb →
      parse_datetime bk.last_update = some t →
      snapshot_exists ({ s with events := s.events.map (fun r2 =>
          if r2.provider == p.provider.getD "unknown" && r2.provider_event_id == p.event.id
          then eventRowFor (p.provider.getD "unknown") p.sport_key p.event e.id
          else r2) } : Store).snapshots
        (eventRowFor (p.provider.getD "unknown") p.sport_key p.event e.id).id
        sb.id (p.provider.getD "unknown") (some t) = true := by
    intro bk hbk sb t hre hL hT
    show snapshot_exists s.snapshots e.id sb.id (p.provider.getD "unknown") (some t) = true
    rw [hsnap, hide]
    exact hbs bk hbk sb t hre hL hT
  rw [bookmaker_fold_steady cfgBooks lookup (p.provider.getD "unknown") now
      (eventRowFor (p.provider.getD "unknown") p.sport_key p.event e.id)
      p.event.bookmakers _ i k hparse hex] at h
  subst h
  refine ⟨hsnap, hsb, ?_, ?_, rfl, rfl⟩
  · intro pr0 pid0
    show findEventId (s.events.map (fun r2 =>
        if r2.provider == p.provider.getD "unknown" && r2.provider_event_id == p.event.id
        then eventRowFor (p.provider.getD "unknown") p.sport_key p.event e.id
        else r2)) pr0 pid0 = findEventId S1.events pr0 pid0
    by_cases hcase : pr0 = p.provider.getD "unknown" ∧ pid0 = p.event.id
    · obtain ⟨rfl, rfl⟩ := hcase
      rw [findEventId_map_update_eq (p.provider.getD "unknown") p.event.id
          (eventRowFor (p.provider.getD "unknown") p.sport_key p.event e.id) rfl rfl
          s.events hfid_e2]
      rw [heid]
      show some e.id = some eid
      rw [hide]
    · rw [findEventId_map_update_ne (p.provider.getD "unknown") p.event.id
          (eventRowFor (p.provider.getD "unknown") p.sport_key p.event e.id) rfl rfl
          pr0 pid0 hcase s.events]
      exact hfind pr0 pid0
  · show (s.events.map (fun r2 =>
        if r2.provider == p.provider.getD "unknown" && r2.provider_event_id == p.event.id
        then eventRowFor (p.provider.getD "unknown") p.sport_key p.event e.id
        else r2)).map eventKey = S1.events.map eventKey
    rw [eventKey_map_update (p.provider.getD "unknown") p.event.id
        (eventRowFor (p.provider.getD "unknown") p.sport_key p.event e.id) rfl rfl s.events]
    exact hkeys

/-- The payload loop of a batch run: sportsbooks pass through, snapshots
only grow, stored event ids survive, every payload of the batch ends
persisted, and the two counters sum to the batch's duplicate-check
reach. -/

theorem payload_fold_run (cfgBooks : List String)
    (lookup : List (String × SportsbookRow)) (now : ℤ) :
    ∀ (data : List EventPayload) (s : Store) (i k : ℤ) (r : Store × ℤ × ℤ),
    data.foldl (process_payload cfgBooks lookup now) (s, i, k) = r →
    r.1.sportsbooks = s.sportsbooks ∧
    (∃ new, r.1.snapshots = s.snapshots ++ new) ∧
    (∀ pr pid eid, findEventId s.events pr pid = some eid →
      findEventId r.1.events pr pid = some eid) ∧
    (∀ p ∈ data, payloadPersisted cfgBooks lookup r.1 p) ∧
    r.2.1 + r.2.2 = i + k + (totalReach cfgBooks lookup data : ℤ) := by
  intro data
  induction data with
  | nil =>
    intro s i k r h
    rw [List.foldl_nil] at h
    subst h
    refine ⟨rfl, ⟨[], (List.append_nil _).symm⟩, fun pr pid eid hid => hid, ?_,
      by simp [totalReach]⟩
    intro p hp
    exact absurd hp (List.not_mem_nil p)
  | cons p ps ih =>
    intro s i k r h
    rcases hP : process_payload cfgBooks lookup now (s, i, k) p with ⟨s1, i1, k1⟩
    rw [List.foldl_cons, hP] at h
    rcases ih s1 i1 k1 r h with ⟨hsb, ⟨new2, hsn⟩, hmono, hpers, hcnt⟩
    rcases process_payload_run cfgBooks lookup now s i k p _ hP
      with ⟨hsb1, ⟨new1, hsn1⟩, hmono1, hpp1, hcnt1⟩
    have hA1 : s1.sportsbooks = s.sportsbooks := hsb1
    have hB1 : s1.snapshots = s.snapshots ++ new1 := hsn1
    have hC1 : ∀ pr pid eid, findEventId s.events pr pid = some eid →
        findEventId s1.events pr pid = some eid := hmono1
    have hD1 : payloadPersisted cfgBooks lookup s1 p := hpp1
    have hE1 : i1 + k1 = i + k + (reachCount cfgBooks lookup p : ℤ) := hcnt1
    refine ⟨hsb.trans hA1, ⟨new1 ++ new2, ?_⟩, ?_, ?_, ?_⟩
    · rw [hsn, hB1, List.append_assoc]
    · intro pr pid eid hid
      exact hmono pr pid eid (hC1 pr pid eid hid)
    · intro p2 hp2
      rcases List.mem_cons.mp hp2 with rfl | hp2
      · exact payloadPersisted_mono cfgBooks lookup s1 r.1 p2 hD1 hmono ⟨new2, hsn⟩
      · exact hpers p2 hp2
    · rw [hcnt, hE1, totalReach_cons]
      push_cast
      ring

/-- The payload loop re-run against a committed store that already
persists every payload, with all fetch times parseable: the store's
snapshots, sportsbooks, event ids and event keys are unchanged, the
inserted counter does not move, and the skipped counter absorbs the whole
batch reach. -/

theorem payload_fold_steady (cfgBooks : List String)
    (lookup : List (String × SportsbookRow)) (now : ℤ) (S1 : Store) :
    ∀ (data : List EventPayload) (s : Store) (i k : ℤ) (r : Store × ℤ × ℤ),
    s.snapshots = S1.snapshots → s.sportsbooks = S1.sportsbooks →
    (∀ pr pid, findEventId s.events pr pid = findEventId S1.events pr pid) →
    s.events.map eventKey = S1.events.map eventKey →
    (∀ p ∈ data, payloadPersisted cfgBooks lookup S1 p) →
    (∀ p ∈ data, ∀ bk ∈ p.event.bookmakers, (parse_datetime bk.last_update).isSome = true) →
    data.foldl (process_payload cfgBooks lookup now) (s, i, k) = r →
    r.1.snapshots = S1.snapshots ∧ r.1.sportsbooks = S1.sportsbooks ∧
    (∀ pr pid, findEventId r.1.events pr pid = findEventId S1.events pr pid) ∧
    r.1.events.map eventKey = S1.events.map eventKey ∧
    r.2.1 = i ∧ r.2.2 = k + (totalReach cfgBooks lookup data : ℤ) := by
  intro data
  induction data with
  | nil =>
    intro s i k r h1 h2 h3 h4 _ _ h
    rw [List.foldl_nil] at h
    subst h
    exact ⟨h1, h2, h3, h4, rfl, by simp [totalReach]⟩
  | cons p ps ih =>
    intro s i k r h1 h2 h3 h4 hpers hparse h
    rcases hP : process_payload cfgBooks lookup now (s, i, k) p with ⟨s1, i1, k1⟩
    rw [List.foldl_cons, hP] at h
    obtain ⟨g1, g2, g3, g4, g5, g6⟩ := process_payload_steady cfgBooks lookup now S1 s i k p _
      h1 h2 h3 h4 (hpers p (List.mem_cons_self p ps))
      (hparse p (List.mem_cons_self p ps)) hP
    have g1b : s1.snapshots = S1.snapshots := g1
    have g2b : s1.sportsbooks = S1.sportsbooks := g2
    have g3b : ∀ pr pid, findEventId s1.events pr pid = findEventId S1.events pr pid := g3
    have g4b : s1.events.map eventKey = S1.events.map eventKey := g4
    have g5b : i1 = i := g5
    have g6b : k1 = k + (reachCount cfgBooks lookup p : ℤ) := g6
    obtain ⟨f1, f2, f3, f4, f5, f6⟩ := ih s1 i1 k1 r g1b g2b g3b g4b
      (fun q hq => hpers q (List.mem_cons_of_mem _ hq))
      (fun q hq => hparse q (List.mem_cons_of_mem _ hq)) h
    refine ⟨f1, f2, f3, f4, ?_, ?_⟩
    · rw [f5, g5b]
    · rw [f6, g6b, totalReach_cons]
      push_cast
      ring

/-- C2 (amended): when every bookmaker entry of the batch carries a
parseable `last_update` timestamp, re-running `persist_snapshot_batch` on
the identical batch against the store committed by a first successful run
(with no concurrent writes) is idempotent: the re-run commits with
`inserted = 0`, counts the first run's `inserted + skipped` as skipped
duplicates, and leaves the snapshot and sportsbook tables unchanged. -/

theorem C2_amended (cfgBooks : List String) (now1 now2 : ℤ) (store0 : Store)
    (data : List EventPayload) (S1 : Store) (ins1 skip1 : ℤ)
    (hparse : ∀ p ∈ data, ∀ bk ∈ p.event.bookmakers,
      (parse_datetime bk.last_update).isSome = true)
    (h1 : persist_snapshot_batch cfgBooks now1 [] store0 data =
      PersistOutcome.ok S1 ins1 skip1) :
    ∃ S2, persist_snapshot_batch cfgBooks now2 [] S1 data =
        PersistOutcome.ok S2 0 (ins1 + skip1) ∧
      S2.snapshots = S1.snapshots ∧ S2.sportsbooks = S1.sportsbooks := by
  by_cases hd : data.isEmpty = true
  · rw [persist_snapshot_batch, if_pos hd, add_external_nil] at h1
    injection h1 with ha hb hc
    subst ha
    subst hb
    subst hc
    refine ⟨store0, ?_, rfl, rfl⟩
    rw [persist_snapshot_batch, if_pos hd, add_external_nil]
    norm_num
  · rw [persist_snapshot_batch, if_neg hd] at h1
    cases hE : ensure_sportsbooks cfgBooks store0 with
    | error e =>
      rw [hE] at h1
      exact absurd h1 (by simp)
    | ok store1 =>
      simp only [hE] at h1
      rw [add_external_nil, add_external_nil] at h1
      rcases hR : data.foldl (process_payload cfgBooks
          (sportsbook_lookup cfgBooks store1.sportsbooks) now1) (store1, (0:ℤ), (0:ℤ))
        with ⟨St, iv, kv⟩
      rw [hR] at h1
      split at h1
      next hok =>
        injection h1 with ha hb hc
        have haS : St = S1 := ha
        have hbS : iv = ins1 := hb
        have hcS : kv = skip1 := hc
        subst haS
        subst hbS
        subst hcS
        have hokSt : storeOk St := hok
        obtain ⟨Rsb, ⟨newR, Rsn⟩, Rmono, Rpers, Rcnt⟩ :=
          payload_fold_run cfgBooks (sportsbook_lookup cfgBooks store1.sportsbooks) now1
            data store1 0 0 (St, iv, kv) hR
        have hsbSt : St.sportsbooks = store1.sportsbooks := Rsb
        have hcntS : iv + kv =
            (totalReach cfgBooks (sportsbook_lookup cfgBooks store1.sportsbooks) data : ℤ) := by
          have := Rcnt
          omega
        have hkeysSt : ∀ k ∈ cfgBooks, ∃ sb ∈ St.sportsbooks, sb.key = k := by
          intro k hk
          rw [hsbSt]
          exact ensure_sportsbooks_keys cfgBooks store0 store1 hE k hk
        rw [persist_snapshot_batch, if_neg hd]
        simp only [ensure_sportsbooks_id cfgBooks St hkeysSt hokSt]
        rw [hsbSt]
        rcases hR2 : data.foldl (process_payload cfgBooks
            (sportsbook_lookup cfgBooks store1.sportsbooks) now2) (St, (0:ℤ), (0:ℤ))
          with ⟨St2, iv2, kv2⟩
        obtain ⟨f1, f2, f3, f4, f5, f6⟩ :=
          payload_fold_steady cfgBooks (sportsbook_lookup cfgBooks store1.sportsbooks) now2
            St data St 0 0 (St2, iv2, kv2) rfl rfl (fun pr pid => rfl) rfl
            Rpers hparse hR2
        have f1b : St2.snapshots = St.snapshots := f1
        have f2b : St2.sportsbooks = St.sportsbooks := f2
        have f4b : St2.events.map eventKey = St.events.map eventKey := f4
        have f5b : iv2 = 0 := f5
        have f6b : kv2 = 0 +
            (totalReach cfgBooks (sportsbook_lookup cfgBooks store1.sportsbooks) data : ℤ) := f6
        rw [add_external_nil]
        obtain ⟨o1, o2, o3⟩ := hokSt
        have hok2 : storeOk St2 := by
          refine ⟨?_, ?_, ?_⟩
          · rw [f2b]
            exact o1
          · rw [f4b]
            exact o2
          · rw [f1b]
            exact o3
        rw [if_pos hok2]
        refine ⟨St2, ?_, f1b, f2b.trans hsbSt⟩
        rw [f5b, f6b, hcntS]
        norm_num
      next hok =>
        exact absurd h1 (by simp)

/-- The amended C2 idempotence theorem holds on a concrete batch: the
first run over `c2w_payload` against an empty database commits `c2w_S1`
with counters (0, 0), and the re-run commits with counters (0, 0) and the
same snapshot table. -/

theorem C2_witness :
    ∃ S2, persist_snapshot_batch [] 600 [] c2w_S1 [c2w_payload] =
        PersistOutcome.ok S2 0 (0 + 0) ∧
      S2.snapshots = c2w_S1.snapshots ∧ S2.sportsbooks = c2w_S1.sportsbooks :=
  C2_amended [] 500 600 ex_store0 [c2w_payload] c2w_S1 0 0
    (by decide) (by decide)

end CoachV2
